import Mathlib

/-!
Verification development for the `elemental` repository.

Part 1 models the reactive core (Reactor proxy, Observer runtime, cell
registry, batching, hide, shuck and error aggregation).  The reactive core
itself (`src/reactor.js`, the `reactorjs` module) is not part of the source
tree here — only its test suite is — so the model below is written from the
specification's description of the engine (data model §3, component design
§4, error handling §7) and is exercised against the behaviours the test
suite pins down.

Part 2 embeds the DOM-helper functions that are present in the source tree
(`getNodesBetween`, `isTreatedAsQuerySelector`, the `el` descriptor logic),
translated directly from the JavaScript.
-/

namespace Elemental

/-- Modelled from the spec: the values stored in wrapped objects.  Primitives
are returned as-is by the proxy; `obj i` is a reference to the source object
with identity `i` (non-primitive values are wrapped on read). -/
inductive Val where
  | str (s : String)
  | num (n : Int)
  | boolv (b : Bool)
  | undefined
  | obj (id : Nat)
deriving DecidableEq, Repr

/-- Modelled from the spec: an access key is a property name, the
pair-wise HAS(key) sentinel, or the OWN_KEYS sentinel (§3). -/
inductive AccessKey where
  | prop (k : String)
  | hasK (k : String)
  | ownKeys
deriving DecidableEq, Repr

/-- A cell is a pair (source identity, access key) (§3, glossary). -/
abbrev Cell := Nat × AccessKey

/-- Modelled from the spec: errors surfaced by the core — either a plain
observer-body error (identified by its message) or a composite error whose
`cause` is the ordered list of underlying errors (§7). -/
inductive RErr where
  | simple (msg : String)
  | compound (causes : List RErr)

/-- Number of entries of the `cause` list of a composite error. -/
def RErr.numCauses : RErr → Nat
  | .compound cs => cs.length
  | .simple _ => 0

/-- Modelled from the spec: composites inside a collected error list are
flattened one level when building the aggregate error (§7). -/
def flattenOnce : List RErr → List RErr
  | [] => []
  | RErr.compound cs :: rest => cs ++ flattenOnce rest
  | e :: rest => e :: flattenOnce rest

/-- Modelled from the spec: error aggregation over one drain cycle — no
errors raise nothing, a single error is raised as-is, several errors raise
one composite whose cause list is the one-level flattening (§7). -/
def aggregate : List RErr → Option RErr
  | [] => none
  | [e] => some e
  | es => some (.compound (flattenOnce es))

/-- Association-list lookup (used for the heap, the registry and the
observer table of the model). -/
def lookupA {α β : Type} [DecidableEq α] : List (α × β) → α → Option β
  | [], _ => none
  | (k, v) :: rest, key => if k = key then some v else lookupA rest key

/-- Association-list update; appends the binding when the key is absent
(matching JavaScript assignment, which appends a fresh own key). -/
def setA {α β : Type} [DecidableEq α] : List (α × β) → α → β → List (α × β)
  | [], key, v => [(key, v)]
  | (k, w) :: rest, key, v =>
    if k = key then (k, v) :: rest else (k, w) :: setA rest key v

/-- A source object: its own properties in insertion order. -/
abbrev Obj := List (String × Val)

/-- The heap of source objects, indexed by identity. -/
abbrev Heap := List (Nat × Obj)

/-- Raw property read on the heap; missing objects and missing keys give
`undefined`, as in JavaScript. -/
def heapGetRaw (h : Heap) (src : Nat) (key : String) : Val :=
  match lookupA h src with
  | some o => (lookupA o key).getD .undefined
  | none => .undefined

/-- Own keys of a source, in insertion order. -/
def heapKeys (h : Heap) (src : Nat) : List String :=
  ((lookupA h src).getD []).map Prod.fst

/-- Underlying assignment: update the property in place, or append it as a
new own key. -/
def assign (h : Heap) (src : Nat) (key : String) (v : Val) : Heap :=
  match lookupA h src with
  | some o => setA h src (setA o key v)
  | none => setA h src [(key, v)]

/-- Remove a property from an object. -/
def removeKey (key : String) : Obj → Obj
  | [] => []
  | (k, v) :: rest =>
    if k = key then removeKey key rest else (k, v) :: removeKey key rest

/-- Underlying property deletion. -/
def heapDelete (h : Heap) (src : Nat) (key : String) : Heap :=
  match lookupA h src with
  | some o => setA h src (removeKey key o)
  | none => h

/-- Boolean membership test on a list (first-order, decidable-equality
based). -/
def containsD {α : Type} [DecidableEq α] : List α → α → Bool
  | [], _ => false
  | a :: rest, x => if a = x then true else containsD rest x

/-- Boolean inclusion of one key list in another. -/
def subsetK : List String → List String → Bool
  | [], _ => true
  | k :: rest, b => containsD b k && subsetK rest b

/-- Equality of own-key lists as sets (order irrelevant), the comparison the
`set` trap uses for the OWN_KEYS cell (§4.1). -/
def keySetEq (a b : List String) : Bool :=
  subsetK a b && subsetK b a

/-- Modelled from the spec: observer lifecycle states (§3). -/
inductive OState where
  | idle
  | running
  | stopped
deriving DecidableEq, Repr

/-- Modelled from the spec: programs that observer bodies and client code
are written in — reads, writes, existence checks, key enumeration, hide and
batch scopes, throwing, a conditional on a read value, a write whose value
comes from a read (for chained-observer scenarios), and starting another
observer. -/
inductive Prog where
  | skip
  | lit (v : Val)
  | seq (a b : Prog)
  | readP (src : Nat) (key : String)
  | hasP (src : Nat) (key : String)
  | keysP (src : Nat)
  | writeP (src : Nat) (key : String) (v : Val)
  | writeFromRead (dst : Nat) (dk : String) (src : Nat) (sk : String)
  | deleteP (src : Nat) (key : String)
  | hideP (p : Prog)
  | batchP (p : Prog)
  | throwP (msg : String)
  | ifEq (src : Nat) (key : String) (v : Val) (thn : Prog)
  | startP (oid : Nat)
deriving DecidableEq, Repr

/-- Modelled from the spec: the observer record — current executable body,
lifecycle state, last returned value, and the `this`/arguments captured from
the most recent invocation (§3). -/
structure ObsRec where
  body : Prog
  state : OState
  value : Val
  thisV : Val
  argsV : List Val
deriving DecidableEq, Repr

/-- Modelled from the spec: the process-wide state of the core — the heap of
sources, the cell registry, the observer table, the pending queue, the
batch depth, the current-observer stack with its hidden flag, a flag marking
that a drain is in progress (re-entrant writes enqueue without starting a
nested drain, §4.4), a run log (observer id with the `this`/arguments the
run used), the canonical source↔wrapper maps, and a fresh-identity
counter. -/
structure St where
  heap : Heap
  subs : List (Cell × List Nat)
  obs : List (Nat × ObsRec)
  pending : List Nat
  depth : Nat
  stack : List Nat
  hidden : Bool
  draining : Bool
  trace : List (Nat × Val × List Val)
  wrapMap : List (Nat × Nat)
  srcMap : List (Nat × Nat)
  nextId : Nat
deriving DecidableEq, Repr

/-- The empty initial state. -/
def St.init : St :=
  { heap := [], subs := [], obs := [], pending := [], depth := 0,
    stack := [], hidden := false, draining := false, trace := [],
    wrapMap := [], srcMap := [], nextId := 100 }

/-- Subscriber list of a cell, in subscription-insertion order. -/
def subsOf (st : St) (c : Cell) : List Nat :=
  (lookupA st.subs c).getD []

/-- Add a subscription edge (idempotent, keeps insertion order). -/
def subscribe (st : St) (oid : Nat) (c : Cell) : St :=
  if containsD (subsOf st c) oid then st
  else { st with subs := setA st.subs c (subsOf st c ++ [oid]) }

/-- Modelled from the spec: a read registers a subscription for the top of
the current-observer stack, unless the stack is empty or the hidden flag is
set (§4.1 step 1, §4.2). -/
def maybeSubscribe (st : St) (c : Cell) : St :=
  match st.stack with
  | [] => st
  | oid :: _ => if st.hidden then st else subscribe st oid c

/-- Remove one observer from a subscriber list. -/
def removeObs (oid : Nat) : List Nat → List Nat
  | [] => []
  | o :: rest => if o = oid then removeObs oid rest else o :: removeObs oid rest

/-- Remove one observer from every cell of a registry. -/
def unsubAllList (oid : Nat) : List (Cell × List Nat) → List (Cell × List Nat)
  | [] => []
  | (c, l) :: rest => (c, removeObs oid l) :: unsubAllList oid rest

/-- Modelled from the spec: remove an observer from every cell it was
subscribed to (§4.3 unsubscribeAll). -/
def unsubscribeAll (st : St) (oid : Nat) : St :=
  { st with subs := unsubAllList oid st.subs }

/-- Append a subscriber list to an accumulator, skipping observers already
present (the pending queue de-duplicates on enqueue, §3). -/
def dedupAppend : List Nat → List Nat → List Nat
  | acc, [] => acc
  | acc, o :: rest =>
    if containsD acc o then dedupAppend acc rest
    else dedupAppend (acc ++ [o]) rest

/-- Enqueue the subscribers of a list of cells onto an accumulator,
de-duplicating on enqueue. -/
def collectInto (st : St) : List Nat → List Cell → List Nat
  | acc, [] => acc
  | acc, c :: cells => collectInto st (dedupAppend acc (subsOf st c)) cells

/-- The de-duplicated list of observers notified by a list of cells,
starting from an empty queue. -/
def collectSubs (st : St) (cells : List Cell) : List Nat :=
  collectInto st [] cells

/-- Modelled from the spec: notify a list of cells — enqueue each
subscriber on the pending queue, de-duplicated (§4.1). -/
def notifyCells (st : St) (cells : List Cell) : St :=
  { st with pending := collectInto st st.pending cells }

/-- Canonical wrapper construction: return the existing wrapper of a source
if one exists, otherwise allocate a fresh wrapper identity and record the
bidirectional mapping (§3 identity stability). -/
def reactorCtor (st : St) (s : Nat) : Nat × St :=
  match lookupA st.wrapMap s with
  | some w => (w, st)
  | none =>
    let w := st.nextId
    (w, { st with wrapMap := setA st.wrapMap s w,
                  srcMap := setA st.srcMap w s,
                  nextId := st.nextId + 1 })

/-- Modelled from the spec: `shuck` returns the source behind a wrapper
identity (§4.1). -/
def shuck (st : St) (w : Nat) : Option Nat :=
  lookupA st.srcMap w

/-- Modelled from the spec: non-primitive read results are returned as
their canonical Reactor wrapper, constructed lazily (§4.1 step 3). -/
def wrapVal (st : St) (v : Val) : Val × St :=
  match v with
  | .obj i => (.obj (reactorCtor st i).1, (reactorCtor st i).2)
  | v => (v, st)

/-- The `get` trap: register a subscription on the value cell, resolve the
raw value, wrap object results (§4.1). -/
def readStep (st : St) (src : Nat) (key : String) : Val × St :=
  let st₁ := maybeSubscribe st (src, .prop key)
  wrapVal st₁ (heapGetRaw st₁.heap src key)

/-- The `has` trap: register against the HAS(key) cell and return the raw
result (§4.1). -/
def hasStep (st : St) (src : Nat) (key : String) : Val × St :=
  let st₁ := maybeSubscribe st (src, .hasK key)
  (.boolv (containsD (heapKeys st₁.heap src) key), st₁)

/-- The `ownKeys` trap: register against the OWN_KEYS cell (§4.1).  The raw
key list itself is not a first-class value of the model. -/
def keysStep (st : St) (src : Nat) : Val × St :=
  let st₁ := maybeSubscribe st (src, .ownKeys)
  (.undefined, st₁)

/-- Modelled from the spec: the `set` trap — compute the old value, perform
the underlying assignment, and notify only the cells whose observable
projection changed: nothing when the effective value is strictly equal to
the old one and the own-key set and the existence of the key are unchanged;
otherwise the value cell always, the HAS(key) cell only if existence
changed, the OWN_KEYS cell only if the own-key set changed (§4.1).
Returns the list of changed cells together with the updated state. -/
def setTrapPure (st : St) (src : Nat) (key : String) (v : Val) :
    List Cell × St :=
  let oldVal := heapGetRaw st.heap src key
  let oldKeys := heapKeys st.heap src
  let oldHas := containsD oldKeys key
  let h := assign st.heap src key v
  let newVal := heapGetRaw h src key
  let newKeys := heapKeys h src
  let newHas := containsD newKeys key
  let st₁ := { st with heap := h }
  if newVal = oldVal ∧ keySetEq newKeys oldKeys = true ∧ newHas = oldHas then
    ([], st₁)
  else
    let cells := [(src, AccessKey.prop key)]
      ++ (if newHas = oldHas then [] else [(src, AccessKey.hasK key)])
      ++ (if keySetEq newKeys oldKeys then [] else [(src, AccessKey.ownKeys)])
    (cells, notifyCells st₁ cells)

/-- Modelled from the spec: the `deleteProperty` trap behaves analogously to
`set` — it notifies exactly the cells whose observable projection changed
(§4.1). -/
def deleteTrapPure (st : St) (src : Nat) (key : String) : List Cell × St :=
  let oldVal := heapGetRaw st.heap src key
  let oldKeys := heapKeys st.heap src
  let oldHas := containsD oldKeys key
  let h := heapDelete st.heap src key
  let newVal := heapGetRaw h src key
  let newKeys := heapKeys h src
  let newHas := containsD newKeys key
  let st₁ := { st with heap := h }
  if newVal = oldVal ∧ keySetEq newKeys oldKeys = true ∧ newHas = oldHas then
    ([], st₁)
  else
    let cells := [(src, AccessKey.prop key)]
      ++ (if newHas = oldHas then [] else [(src, AccessKey.hasK key)])
      ++ (if keySetEq newKeys oldKeys then [] else [(src, AccessKey.ownKeys)])
    (cells, notifyCells st₁ cells)

/-- Observer-table lookup. -/
def lookupObs (st : St) (oid : Nat) : Option ObsRec :=
  lookupA st.obs oid

/-- Replace an observer record. -/
def setObs (st : St) (oid : Nat) (r : ObsRec) : St :=
  { st with obs := setA st.obs oid r }

/-- Set the lifecycle state of an observer (no-op for unknown ids). -/
def setObsState (st : St) (oid : Nat) (s : OState) : St :=
  match lookupObs st oid with
  | some r => setObs st oid { r with state := s }
  | none => st

/-- Modelled from the spec: `stop()` — transition to stopped and clear the
observer's subscriptions; idempotent (§4.4). -/
def stopObs (st : St) (oid : Nat) : St :=
  setObsState (unsubscribeAll st oid) oid .stopped

/-- Finish a drain: clear the draining flag and raise the aggregated error
if any was collected, otherwise return the write's value (§7 policy). -/
def finishDrain (v : Val) : Option (List RErr × St) → Option (Except RErr Val × St)
  | none => none
  | some (errs, st₁) =>
    let st₂ := { st₁ with draining := false }
    match aggregate errs with
    | none => some (.ok v, st₂)
    | some e => some (.error e, st₂)

mutual

/-- Modelled from the spec: the single-threaded interpreter of client
programs over the reactive core.  Writes apply the `set` trap and, when the
batch depth is zero and no drain is already in progress, drain the pending
queue (§4.1, §4.4, §4.5).  `hide` runs its body with the hidden flag set and
restores it on exit (§4.2).  `batch` increments the depth, runs its body,
decrements the depth and drains only when the depth returns to zero (§4.5).
`start` transitions a stopped observer to idle and triggers one run, and is
a no-op otherwise (§4.4).  The fuel argument bounds the number of nested
steps; `none` means the fuel ran out. -/
def interp : Nat → Prog → St → Option (Except RErr Val × St)
  | 0, _, _ => none
  | fuel + 1, p, st =>
    match p with
    | .skip => some (.ok .undefined, st)
    | .lit v => some (.ok v, st)
    | .seq a b =>
      match interp fuel a st with
      | none => none
      | some (.error e, st₁) => some (.error e, st₁)
      | some (.ok _, st₁) => interp fuel b st₁
    | .readP src key =>
      let r := readStep st src key
      some (.ok r.1, r.2)
    | .hasP src key =>
      let r := hasStep st src key
      some (.ok r.1, r.2)
    | .keysP src =>
      let r := keysStep st src
      some (.ok r.1, r.2)
    | .writeP src key v =>
      let r := setTrapPure st src key v
      if r.2.depth = 0 ∧ r.2.draining = false then
        finishDrain v (drainAll fuel { r.2 with draining := true })
      else some (.ok v, r.2)
    | .writeFromRead dst dk src sk =>
      let r₀ := readStep st src sk
      let r := setTrapPure r₀.2 dst dk r₀.1
      if r.2.depth = 0 ∧ r.2.draining = false then
        finishDrain r₀.1 (drainAll fuel { r.2 with draining := true })
      else some (.ok r₀.1, r.2)
    | .deleteP src key =>
      let r := deleteTrapPure st src key
      if r.2.depth = 0 ∧ r.2.draining = false then
        finishDrain (.boolv true) (drainAll fuel { r.2 with draining := true })
      else some (.ok (.boolv true), r.2)
    | .hideP q =>
      match interp fuel q { st with hidden := true } with
      | none => none
      | some (r, st₁) => some (r, { st₁ with hidden := st.hidden })
    | .batchP q =>
      match interp fuel q { st with depth := st.depth + 1 } with
      | none => none
      | some (.error e, st₁) => some (.error e, { st₁ with depth := st₁.depth - 1 })
      | some (.ok v, st₁) =>
        let st₂ := { st₁ with depth := st₁.depth - 1 }
        if st₂.depth = 0 ∧ st₂.draining = false then
          finishDrain v (drainAll fuel { st₂ with draining := true })
        else some (.ok v, st₂)
    | .throwP msg => some (.error (.simple msg), st)
    | .ifEq src key v thn =>
      let r := readStep st src key
      if r.1 = v then interp fuel thn r.2 else some (.ok .undefined, r.2)
    | .startP oid =>
      match lookupObs st oid with
      | none => some (.ok .undefined, st)
      | some rec =>
        if rec.state = .stopped then
          match runObs fuel oid (setObsState st oid .idle) with
          | none => none
          | some (some e, st₂) => some (.error e, st₂)
          | some (none, st₂) => some (.ok .undefined, st₂)
        else some (.ok .undefined, st)

/-- Modelled from the spec: the drain loop — pop the front of the pending
queue; run the observer when it is idle, skip it when it is stopped, and
collect the errors of the drained runs in order; the drain runs every
enqueued observer even when errors occur (§4.4 triggering, §7 policy). -/
def drainAll : Nat → St → Option (List RErr × St)
  | 0, st => match st.pending with | [] => some ([], st) | _ :: _ => none
  | fuel + 1, st =>
    match st.pending with
    | [] => some ([], st)
    | oid :: rest =>
      let st₁ := { st with pending := rest }
      match lookupObs st₁ oid with
      | none => drainAll fuel st₁
      | some rec =>
        if rec.state = .idle then
          match runObs fuel oid st₁ with
          | none => none
          | some (errOpt, st₂) =>
            match drainAll fuel st₂ with
            | none => none
            | some (errs, st₃) => some (errOpt.toList ++ errs, st₃)
        else drainAll fuel st₁

/-- Modelled from the spec: the run procedure of an observer — mark it
running, clear its prior subscriptions, push it on the current-observer
stack, record the invocation in the run log, invoke the body with the saved
`this` and arguments, pop the stack and mark it idle; on success the
returned value is stored, on a thrown error the subscriptions are cleared
and the error is handed to the run's caller (§4.4). -/
def runObs : Nat → Nat → St → Option (Option RErr × St)
  | 0, _, _ => none
  | fuel + 1, oid, st =>
    match lookupObs st oid with
    | none => some (none, st)
    | some rec =>
      let st₁ := setObs st oid { rec with state := .running }
      let st₂ := unsubscribeAll st₁ oid
      let st₃ := { st₂ with stack := oid :: st₂.stack,
                            trace := st₂.trace ++ [(oid, rec.thisV, rec.argsV)] }
      match interp fuel rec.body st₃ with
      | none => none
      | some (.ok v, st₄) =>
        let st₅ := { st₄ with stack := st₄.stack.tail }
        let st₆ :=
          match lookupObs st₅ oid with
          | some r₂ => setObs st₅ oid { r₂ with state := .idle, value := v }
          | none => st₅
        some (none, st₆)
      | some (.error e, st₄) =>
        let st₅ := { st₄ with stack := st₄.stack.tail }
        some (some e, setObsState (unsubscribeAll st₅ oid) oid .idle)

end

/-- Modelled from the spec: invoking an observer — capture `this` and the
arguments from the invocation, run the body, and return the body's return
value (§4.4, §6). -/
def invokeObs (fuel : Nat) (oid : Nat) (thisV : Val) (args : List Val)
    (st : St) : Option (Except RErr Val × St) :=
  match lookupObs st oid with
  | none => some (.ok .undefined, st)
  | some rec =>
    let st₁ := setObs st oid { rec with thisV := thisV, argsV := args }
    match runObs fuel oid st₁ with
    | none => none
    | some (some e, st₂) => some (.error e, st₂)
    | some (none, st₂) =>
      some (.ok (((lookupObs st₂ oid).map ObsRec.value).getD .undefined), st₂)

/-- Modelled from the spec: `start()` — transition stopped → idle and
trigger one run with the most recent `this` and arguments; idempotent when
the observer is already idle or running (§4.4). -/
def startTop (fuel : Nat) (oid : Nat) (st : St) :
    Option (Except RErr Val × St) :=
  match lookupObs st oid with
  | none => some (.ok .undefined, st)
  | some rec =>
    if rec.state = .stopped then
      match runObs fuel oid (setObsState st oid .idle) with
      | none => none
      | some (some e, st₂) => some (.error e, st₂)
      | some (none, st₂) => some (.ok .undefined, st₂)
    else some (.ok .undefined, st)

/-- The `execute` getter: the currently-bound body (§4.4). -/
def execOf (st : St) (oid : Nat) : Option Prog :=
  (lookupObs st oid).map ObsRec.body

/-- Modelled from the spec: assigning a new body to `execute` is atomically
`stop()` → replace body → `start()` (§4.4 redefinition semantics). -/
def setExecuteTop (fuel : Nat) (oid : Nat) (f : Prog) (st : St) :
    Option (Except RErr Val × St) :=
  let st₁ := stopObs st oid
  let st₂ :=
    match lookupObs st₁ oid with
    | some r => setObs st₁ oid { r with body := f }
    | none => st₁
  startTop fuel oid st₂

/-- A fresh observer record in the stopped state (it has not yet been
invoked or started, so it owns no subscriptions). -/
def mkObs (body : Prog) : ObsRec :=
  { body := body, state := .stopped, value := .undefined,
    thisV := .undefined, argsV := [] }

/-- The state after a computation, discarding the result. -/
def stateOf (r : Option (Except RErr Val × St)) : Option St :=
  r.map Prod.snd

/-- The error raised by a computation, if any. -/
def errOf (r : Option (Except RErr Val × St)) : Option RErr :=
  match r with
  | some (.error e, _) => some e
  | _ => none

/-- The value returned by a computation, if it succeeded. -/
def valOf (r : Option (Except RErr Val × St)) : Option Val :=
  match r with
  | some (.ok v, _) => some v
  | _ => none

/-- Number of runs of one observer recorded in a run log. -/
def countRuns (oid : Nat) : List (Nat × Val × List Val) → Nat
  | [] => 0
  | e :: rest => (if e.1 = oid then 1 else 0) + countRuns oid rest

/-- Sequencing of fallible steps over the model state. -/
def andThen (r : Option (Except RErr Val × St))
    (f : St → Option (Except RErr Val × St)) : Option (Except RErr Val × St) :=
  match r with
  | some (_, st) => f st
  | none => none

/-! ### Scenario: a single observer error propagates as-is
(test `throws an error on a write if there is an Observer error`). -/

def singleErrSt : St :=
  { St.init with
    heap := [(0, [("value", Val.str "foo")])],
    obs := [(1, mkObs (.ifEq 0 "value" (.str "boom") (.throwP "dummy error")))] }

def singleErrRun : Option (Except RErr Val × St) :=
  andThen (invokeObs 40 1 .undefined [] singleErrSt)
    (fun st => interp 40 (.writeP 0 "value" (.str "boom")) st)

/-! ### Scenario: two observer errors raise one composite
(test `throws a CompoundError if there are multiple Observer errors`). -/

def doubleErrSt : St :=
  { St.init with
    heap := [(0, [("value", Val.str "foo")])],
    obs := [(1, mkObs (.ifEq 0 "value" (.str "boom") (.throwP "dummy error 1"))),
            (2, mkObs (.ifEq 0 "value" (.str "boom") (.throwP "dummy error 2")))] }

def doubleErrRun : Option (Except RErr Val × St) :=
  andThen (invokeObs 40 1 .undefined [] doubleErrSt) (fun st =>
    andThen (invokeObs 40 2 .undefined [] st) (fun st =>
      interp 40 (.writeP 0 "value" (.str "boom")) st))

/-! ### Scenario: chained writes across several observers produce a single
flat cause list of length four
(test `throws a flattened compound error with chained observers`). -/

def chainErrSt : St :=
  { St.init with
    heap := [(0, [("foo", Val.str "Bar")])],
    obs := [(1, mkObs (.writeFromRead 0 "passthrough" 0 "foo")),
            (2, mkObs (.ifEq 0 "foo" (.str "error") (.throwP "BIG ERROR 1"))),
            (3, mkObs (.ifEq 0 "foo" (.str "error") (.throwP "BIG ERROR 2"))),
            (4, mkObs (.ifEq 0 "passthrough" (.str "error") (.throwP "small error 1"))),
            (5, mkObs (.ifEq 0 "passthrough" (.str "error") (.throwP "small error 2")))] }

def chainErrRun : Option (Except RErr Val × St) :=
  andThen (invokeObs 40 1 .undefined [] chainErrSt) (fun st =>
    andThen (invokeObs 40 2 .undefined [] st) (fun st =>
      andThen (invokeObs 40 3 .undefined [] st) (fun st =>
        andThen (invokeObs 40 4 .undefined [] st) (fun st =>
          andThen (invokeObs 40 5 .undefined [] st) (fun st =>
            interp 40 (.writeP 0 "foo" (.str "error")) st)))))

end Elemental

namespace Elemental

/-! ### Scenario: batching coalesces three writes into one re-run
(test `delays and combines observer triggers when using batch`). -/

def batchSt : St :=
  { St.init with
    heap := [(0, [("value", Val.str "foo")])],
    obs := [(1, mkObs (.readP 0 "value"))] }

def batchProg : Prog :=
  .batchP (.seq (.writeP 0 "value" (.str "bleep"))
    (.seq (.writeP 0 "value" (.str "bloop"))
      (.writeP 0 "value" (.str "blarp"))))

def batchRun : Option (Except RErr Val × St) :=
  andThen (invokeObs 40 1 .undefined [] batchSt)
    (fun st => interp 40 batchProg st)

/-! ### Scenario: nested batches drain only at the outermost exit
(test `can nest batchers with no consequence`). -/

def nestedBatchProg : Prog :=
  .batchP (.seq (.writeP 0 "value" (.str "bleep"))
    (.seq (.writeP 0 "value" (.str "bloop"))
      (.seq (.writeP 0 "value" (.str "blarp"))
        (.batchP (.seq (.writeP 0 "value" (.str "bink"))
          (.seq (.writeP 0 "value" (.str "bonk"))
            (.writeP 0 "value" (.str "bup"))))))))

def nestedBatchRun : Option (Except RErr Val × St) :=
  andThen (invokeObs 40 1 .undefined [] batchSt)
    (fun st => interp 40 nestedBatchProg st)

/-! ### Scenario: reads inside hide do not subscribe, reads outside do
(tests `does not subscribe in hide block`, `returns output of hide block`). -/

def hideSt : St :=
  { St.init with
    heap := [(0, [("outer", Val.str "foo"), ("inner", Val.str "bar")])],
    obs := [(1, mkObs (.seq (.readP 0 "outer") (.hideP (.readP 0 "inner"))))] }

def hideRunA : Option (Except RErr Val × St) :=
  andThen (invokeObs 40 1 .undefined [] hideSt)
    (fun st => interp 40 (.writeP 0 "inner" (.str "baz")) st)

def hideRunB : Option (Except RErr Val × St) :=
  andThen hideRunA
    (fun st => interp 40 (.writeP 0 "outer" (.str "moo")) st)

/-! ### Scenario: one write, three cells of one observer, one re-run
(test `triggers only once despite multiple dependencies`). -/

def multiDepSt : St :=
  { St.init with
    heap := [(0, [("foo", Val.str "bar")])],
    obs := [(1, mkObs (.seq (.hasP 0 "foo")
      (.seq (.readP 0 "foo") (.keysP 0))))] }

def multiDepRun : Option (Except RErr Val × St) :=
  andThen (invokeObs 40 1 .undefined [] multiDepSt)
    (fun st => interp 40 (.writeP 0 "foo" (.str "baz")) st)

/-! ### Scenario: starting an inner observer from an outer one does not
subscribe the outer observer to the inner one's cells
(test `does not read an observer when calling start`). -/

def innerStartSt : St :=
  { St.init with
    heap := [(0, [("foo", Val.str "bar")])],
    obs := [(1, mkObs (.startP 2)), (2, mkObs (.readP 0 "foo"))] }

def innerStartRun : Option (Except RErr Val × St) :=
  andThen (invokeObs 40 1 .undefined [] innerStartSt)
    (fun st => interp 40 (.writeP 0 "foo" (.str "baz")) st)

/-! ### Scenario: redefining an observer's body switches its dependencies
(test `can redefine an observer`). -/

def redefSt : St :=
  { St.init with
    heap := [(0, [("first", Val.str "foo"), ("second", Val.str "bar")])],
    obs := [(1, mkObs (.readP 0 "first"))] }

def redefRun0 : Option (Except RErr Val × St) :=
  andThen (invokeObs 40 1 .undefined [] redefSt)
    (fun st => setExecuteTop 40 1 (.readP 0 "second") st)

def redefRunA : Option (Except RErr Val × St) :=
  andThen redefRun0
    (fun st => interp 40 (.writeP 0 "first" (.str "moo")) st)

def redefRunB : Option (Except RErr Val × St) :=
  andThen redefRunA
    (fun st => interp 40 (.writeP 0 "second" (.str "baz")) st)

end Elemental

namespace Elemental

/-! ### Association-list lemmas -/

theorem lookupA_setA_self {α β : Type} [DecidableEq α]
    (l : List (α × β)) (k : α) (v : β) :
    lookupA (setA l k v) k = some v := by
  induction l with
  | nil => simp [setA, lookupA]
  | cons p rest ih =>
    obtain ⟨a, b⟩ := p
    by_cases h : a = k
    · simp [setA, h, lookupA]
    · simp [setA, h, lookupA, ih]

theorem lookupA_setA_ne {α β : Type} [DecidableEq α]
    (l : List (α × β)) (k k' : α) (v : β) (h : k' ≠ k) :
    lookupA (setA l k v) k' = lookupA l k' := by
  induction l with
  | nil =>
    simp only [setA, lookupA]
    rw [if_neg (fun e => h e.symm)]
  | cons p rest ih =>
    obtain ⟨a, b⟩ := p
    simp only [setA]
    by_cases ha : a = k
    · rw [if_pos ha]
      simp only [lookupA]
      subst ha
      rw [if_neg (fun e => h e.symm), if_neg (fun e => h e.symm)]
    · rw [if_neg ha]
      simp only [lookupA]
      by_cases hk : a = k'
      · rw [if_pos hk, if_pos hk]
      · rw [if_neg hk, if_neg hk, ih]

/-! ### Core-state preservation: the reactive bookkeeping fields that
subscription-recording steps leave untouched. -/

/-- The fields of the state other than the registry and the wrapper maps. -/
def CoreEq (a b : St) : Prop :=
  a.heap = b.heap ∧ a.pending = b.pending ∧ a.obs = b.obs ∧ a.trace = b.trace ∧
  a.depth = b.depth ∧ a.stack = b.stack ∧ a.hidden = b.hidden ∧
  a.draining = b.draining

theorem coreEq_refl (a : St) : CoreEq a a :=
  ⟨rfl, rfl, rfl, rfl, rfl, rfl, rfl, rfl⟩

theorem coreEq_trans {a b c : St} (h₁ : CoreEq a b) (h₂ : CoreEq b c) :
    CoreEq a c :=
  ⟨h₁.1.trans h₂.1, h₁.2.1.trans h₂.2.1, h₁.2.2.1.trans h₂.2.2.1,
   h₁.2.2.2.1.trans h₂.2.2.2.1, h₁.2.2.2.2.1.trans h₂.2.2.2.2.1,
   h₁.2.2.2.2.2.1.trans h₂.2.2.2.2.2.1,
   h₁.2.2.2.2.2.2.1.trans h₂.2.2.2.2.2.2.1,
   h₁.2.2.2.2.2.2.2.trans h₂.2.2.2.2.2.2.2⟩

theorem coreEq_subscribe (st : St) (oid : Nat) (c : Cell) :
    CoreEq (subscribe st oid c) st := by
  unfold subscribe
  split
  · exact coreEq_refl st
  · exact ⟨rfl, rfl, rfl, rfl, rfl, rfl, rfl, rfl⟩

theorem coreEq_maybeSubscribe (st : St) (c : Cell) :
    CoreEq (maybeSubscribe st c) st := by
  unfold maybeSubscribe
  cases h : st.stack with
  | nil => exact coreEq_refl st
  | cons o rest =>
    show CoreEq (if st.hidden = true then st else subscribe st o c) st
    by_cases hh : st.hidden = true
    · rw [if_pos hh]; exact coreEq_refl st
    · rw [if_neg hh]; exact coreEq_subscribe st o c

theorem coreEq_reactorCtor (st : St) (s : Nat) :
    CoreEq (reactorCtor st s).2 st := by
  unfold reactorCtor
  cases h : lookupA st.wrapMap s with
  | some w => exact coreEq_refl st
  | none => exact ⟨rfl, rfl, rfl, rfl, rfl, rfl, rfl, rfl⟩

theorem coreEq_wrapVal (st : St) (v : Val) : CoreEq (wrapVal st v).2 st := by
  cases v with
  | obj i => exact coreEq_reactorCtor st i
  | str s => exact coreEq_refl st
  | num n => exact coreEq_refl st
  | boolv b => exact coreEq_refl st
  | undefined => exact coreEq_refl st

theorem coreEq_readStep (st : St) (s : Nat) (k : String) :
    CoreEq (readStep st s k).2 st :=
  coreEq_trans (coreEq_wrapVal _ _) (coreEq_maybeSubscribe st _)

theorem coreEq_hasStep (st : St) (s : Nat) (k : String) :
    CoreEq (hasStep st s k).2 st :=
  coreEq_maybeSubscribe st _

theorem coreEq_keysStep (st : St) (s : Nat) :
    CoreEq (keysStep st s).2 st :=
  coreEq_maybeSubscribe st _

end Elemental
namespace Elemental

/-- Bodies that only read (and may hide, branch or return): they perform no
writes, no deletes, no batches, no throws and start no observers. -/
def ReadOnly : Prog → Bool
  | .skip => true
  | .lit _ => true
  | .seq a b => ReadOnly a && ReadOnly b
  | .readP _ _ => true
  | .hasP _ _ => true
  | .keysP _ => true
  | .hideP p => ReadOnly p
  | .ifEq _ _ _ t => ReadOnly t
  | _ => false

/-- Running a read-only program always succeeds and changes nothing except
the registry and the wrapper maps. -/
theorem interp_readonly (p : Prog) :
    ∀ fuel st r st', ReadOnly p = true →
      interp fuel p st = some (r, st') →
      (∃ v, r = Except.ok v) ∧ CoreEq st' st := by
  induction p with
  | skip =>
    intro fuel st r st' hro h
    cases fuel with
    | zero => simp [interp] at h
    | succ n =>
      simp only [interp, Option.some.injEq, Prod.mk.injEq] at h
      obtain ⟨h₁, h₂⟩ := h
      subst h₂
      exact ⟨⟨_, h₁.symm⟩, coreEq_refl st⟩
  | lit v =>
    intro fuel st r st' hro h
    cases fuel with
    | zero => simp [interp] at h
    | succ n =>
      simp only [interp, Option.some.injEq, Prod.mk.injEq] at h
      obtain ⟨h₁, h₂⟩ := h
      subst h₂
      exact ⟨⟨_, h₁.symm⟩, coreEq_refl st⟩
  | seq a b iha ihb =>
    intro fuel st r st' hro h
    simp only [ReadOnly, Bool.and_eq_true] at hro
    cases fuel with
    | zero => simp [interp] at h
    | succ n =>
      simp only [interp] at h
      cases ha : interp n a st with
      | none => rw [ha] at h; simp at h
      | some q =>
        obtain ⟨ra, st₁⟩ := q
        rw [ha] at h
        cases ra with
        | error e =>
          obtain ⟨⟨v, hv⟩, -⟩ := iha n st (.error e) st₁ hro.1 ha
          simp at hv
        | ok va =>
          obtain ⟨hex, hc⟩ := ihb n st₁ r st' hro.2 h
          obtain ⟨-, hc'⟩ := iha n st (.ok va) st₁ hro.1 ha
          exact ⟨hex, coreEq_trans hc hc'⟩
  | readP src key =>
    intro fuel st r st' hro h
    cases fuel with
    | zero => simp [interp] at h
    | succ n =>
      simp only [interp, Option.some.injEq, Prod.mk.injEq] at h
      obtain ⟨h₁, h₂⟩ := h
      subst h₂
      exact ⟨⟨_, h₁.symm⟩, coreEq_readStep st src key⟩
  | hasP src key =>
    intro fuel st r st' hro h
    cases fuel with
    | zero => simp [interp] at h
    | succ n =>
      simp only [interp, Option.some.injEq, Prod.mk.injEq] at h
      obtain ⟨h₁, h₂⟩ := h
      subst h₂
      exact ⟨⟨_, h₁.symm⟩, coreEq_hasStep st src key⟩
  | keysP src =>
    intro fuel st r st' hro h
    cases fuel with
    | zero => simp [interp] at h
    | succ n =>
      simp only [interp, Option.some.injEq, Prod.mk.injEq] at h
      obtain ⟨h₁, h₂⟩ := h
      subst h₂
      exact ⟨⟨_, h₁.symm⟩, coreEq_keysStep st src⟩
  | writeP src key v =>
    intro fuel st r st' hro h
    simp [ReadOnly] at hro
  | writeFromRead dst dk src sk =>
    intro fuel st r st' hro h
    simp [ReadOnly] at hro
  | deleteP src key =>
    intro fuel st r st' hro h
    simp [ReadOnly] at hro
  | hideP q ihq =>
    intro fuel st r st' hro h
    simp only [ReadOnly] at hro
    cases fuel with
    | zero => simp [interp] at h
    | succ n =>
      simp only [interp] at h
      cases hq : interp n q { st with hidden := true } with
      | none => rw [hq] at h; simp at h
      | some pr =>
        obtain ⟨rq, st₁⟩ := pr
        rw [hq] at h
        simp only [Option.some.injEq, Prod.mk.injEq] at h
        obtain ⟨h₁, h₂⟩ := h
        subst h₂
        obtain ⟨hex, hc⟩ := ihq n _ rq st₁ hro hq
        obtain ⟨c1, c2, c3, c4, c5, c6, c7, c8⟩ := hc
        exact ⟨h₁ ▸ hex, c1, c2, c3, c4, c5, c6, rfl, c8⟩
  | batchP q ihq =>
    intro fuel st r st' hro h
    simp [ReadOnly] at hro
  | throwP msg =>
    intro fuel st r st' hro h
    simp [ReadOnly] at hro
  | ifEq src key v thn ihthn =>
    intro fuel st r st' hro h
    simp only [ReadOnly] at hro
    cases fuel with
    | zero => simp [interp] at h
    | succ n =>
      simp only [interp] at h
      by_cases hv : (readStep st src key).1 = v
      · rw [if_pos hv] at h
        obtain ⟨hex, hc⟩ := ihthn n _ r st' hro h
        exact ⟨hex, coreEq_trans hc (coreEq_readStep st src key)⟩
      · rw [if_neg hv] at h
        simp only [Option.some.injEq, Prod.mk.injEq] at h
        obtain ⟨h₁, h₂⟩ := h
        subst h₂
        exact ⟨⟨_, h₁.symm⟩, coreEq_readStep st src key⟩
  | startP oid =>
    intro fuel st r st' hro h
    simp [ReadOnly] at hro

end Elemental
namespace Elemental

/-- Running an observer whose body is read-only: the run never fails, the
run log gains exactly one entry carrying the observer's saved `this` and
arguments, the observer ends idle with its body intact, every other
observer record is untouched, and the heap, queue, depth, stack and flags
are unchanged. -/
theorem runObs_readonly (fuel oid : Nat) (st : St) (rec : ObsRec)
    (rOpt : Option RErr) (st' : St)
    (hrec : lookupObs st oid = some rec) (hro : ReadOnly rec.body = true)
    (h : runObs fuel oid st = some (rOpt, st')) :
    rOpt = none ∧
    st'.heap = st.heap ∧ st'.pending = st.pending ∧
    st'.trace = st.trace ++ [(oid, rec.thisV, rec.argsV)] ∧
    st'.depth = st.depth ∧ st'.stack = st.stack ∧
    st'.hidden = st.hidden ∧ st'.draining = st.draining ∧
    (∃ v, lookupObs st' oid = some { rec with state := OState.idle, value := v }) ∧
    (∀ o, o ≠ oid → lookupObs st' o = lookupObs st o) := by
  cases fuel with
  | zero => simp [runObs] at h
  | succ n =>
    simp only [runObs, hrec] at h
    split at h
    next hi => simp at h
    next v st₄ hi =>
      obtain ⟨-, hc⟩ := interp_readonly rec.body n _ (.ok v) st₄ hro hi
      obtain ⟨c1, c2, c3, c4, c5, c6, c7, c8⟩ := hc
      have hl : lookupObs { st₄ with stack := st₄.stack.tail } oid
          = some { rec with state := OState.running } := by
        show lookupA st₄.obs oid = _
        rw [c3]
        exact lookupA_setA_self _ _ _
      rw [hl] at h
      simp only [Option.some.injEq, Prod.mk.injEq] at h
      obtain ⟨h₁, h₂⟩ := h
      subst h₂
      refine ⟨h₁.symm, c1, c2, c4, c5, ?_, c7, c8, ?_, ?_⟩
      · show st₄.stack.tail = st.stack
        rw [c6]; rfl
      · exact ⟨v, lookupA_setA_self _ _ _⟩
      · intro o ho
        have e1 : lookupA (setA st₄.obs oid
            { rec with state := OState.idle, value := v }) o
            = lookupA st₄.obs o := lookupA_setA_ne _ _ _ _ ho
        have e2 : lookupA st₄.obs o
            = lookupA (setA st.obs oid { rec with state := OState.running }) o := by
          rw [c3]; rfl
        have e3 := lookupA_setA_ne st.obs oid o
          { rec with state := OState.running } ho
        exact e1.trans (e2.trans e3)
    next e st₄ hi =>
      obtain ⟨⟨w, hw⟩, -⟩ := interp_readonly rec.body n _ (.error e) st₄ hro hi
      simp at hw

end Elemental
namespace Elemental

/-- The run-log entries a drain of a queue will produce: one entry per
queued observer that exists and is idle, in queue order. -/
def entriesOf (st : St) : List Nat → List (Nat × Val × List Val)
  | [] => []
  | o :: rest =>
    match lookupObs st o with
    | some r =>
      if r.state = OState.idle
      then (o, r.thisV, r.argsV) :: entriesOf st rest
      else entriesOf st rest
    | none => entriesOf st rest

theorem entriesOf_congr (st₁ st₂ : St) (l : List Nat)
    (h : ∀ o, o ∈ l → lookupObs st₂ o = lookupObs st₁ o) :
    entriesOf st₂ l = entriesOf st₁ l := by
  induction l with
  | nil => rfl
  | cons o rest ih =>
    simp only [entriesOf]
    have ih' := ih (fun o' ho' => h o' (List.mem_cons_of_mem _ ho'))
    rw [h o (List.mem_cons_self o rest), ih']

theorem containsD_iff {α : Type} [DecidableEq α] (l : List α) (x : α) :
    containsD l x = true ↔ x ∈ l := by
  induction l with
  | nil => simp [containsD]
  | cons a rest ih =>
    by_cases h : a = x
    · simp [containsD, h]
    · have h' : ¬(x = a) := fun e => h e.symm
      simp [containsD, h, ih, List.mem_cons, h']

theorem mem_dedupAppend (l : List Nat) :
    ∀ acc x, x ∈ dedupAppend acc l ↔ x ∈ acc ∨ x ∈ l := by
  induction l with
  | nil => intro acc x; simp [dedupAppend]
  | cons o rest ih =>
    intro acc x
    simp only [dedupAppend]
    by_cases hc : containsD acc o = true
    · rw [if_pos hc]
      rw [ih acc x]
      have ho := (containsD_iff acc o).mp hc
      constructor
      · rintro (h | h)
        · exact Or.inl h
        · exact Or.inr (List.mem_cons_of_mem _ h)
      · rintro (h | h)
        · exact Or.inl h
        · rcases List.mem_cons.mp h with he | hm
          · exact Or.inl (he ▸ ho)
          · exact Or.inr hm
    · rw [if_neg hc]
      rw [ih (acc ++ [o]) x]
      simp [List.mem_append, List.mem_cons, or_assoc]
  
theorem dedupAppend_nodup (l : List Nat) :
    ∀ acc : List Nat, acc.Nodup → (dedupAppend acc l).Nodup := by
  induction l with
  | nil => intro acc h; exact h
  | cons o rest ih =>
    intro acc h
    simp only [dedupAppend]
    by_cases hc : containsD acc o = true
    · rw [if_pos hc]; exact ih acc h
    · rw [if_neg hc]
      apply ih
      have ho : o ∉ acc := fun hm => hc ((containsD_iff acc o).mpr hm)
      exact List.nodup_append.mpr
        ⟨h, List.nodup_singleton o,
         fun a ha hb => ho (List.mem_singleton.mp hb ▸ ha)⟩

theorem mem_collectInto (st : St) (cells : List Cell) :
    ∀ acc x, x ∈ collectInto st acc cells ↔
      x ∈ acc ∨ ∃ c, c ∈ cells ∧ x ∈ subsOf st c := by
  induction cells with
  | nil => intro acc x; simp [collectInto]
  | cons c cs ih =>
    intro acc x
    simp only [collectInto]
    rw [ih]
    rw [mem_dedupAppend]
    constructor
    · rintro ((h | h) | ⟨c', hc', hx⟩)
      · exact Or.inl h
      · exact Or.inr ⟨c, List.mem_cons_self c cs, h⟩
      · exact Or.inr ⟨c', List.mem_cons_of_mem _ hc', hx⟩
    · rintro (h | ⟨c', hc', hx⟩)
      · exact Or.inl (Or.inl h)
      · rcases List.mem_cons.mp hc' with he | hm
        · exact Or.inl (Or.inr (he ▸ hx))
        · exact Or.inr ⟨c', hm, hx⟩

theorem collectInto_nodup (st : St) (cells : List Cell) :
    ∀ acc : List Nat, acc.Nodup → (collectInto st acc cells).Nodup := by
  induction cells with
  | nil => intro acc h; exact h
  | cons c cs ih =>
    intro acc h
    simp only [collectInto]
    exact ih _ (dedupAppend_nodup _ _ h)

theorem collectSubs_nodup (st : St) (cells : List Cell) :
    (collectSubs st cells).Nodup :=
  collectInto_nodup st cells [] List.nodup_nil

theorem mem_collectSubs (st : St) (cells : List Cell) (x : Nat) :
    x ∈ collectSubs st cells ↔ ∃ c, c ∈ cells ∧ x ∈ subsOf st c := by
  rw [collectSubs, mem_collectInto]
  simp

theorem countRuns_append (o : Nat) (t₁ t₂ : List (Nat × Val × List Val)) :
    countRuns o (t₁ ++ t₂) = countRuns o t₁ + countRuns o t₂ := by
  induction t₁ with
  | nil => simp [countRuns]
  | cons e rest ih => simp [countRuns, ih]; omega

theorem countRuns_entriesOf (st : St) (l : List Nat) (hnd : l.Nodup)
    (hall : ∀ o, o ∈ l → ∃ r, lookupObs st o = some r ∧ r.state = OState.idle)
    (o : Nat) :
    countRuns o (entriesOf st l) = if o ∈ l then 1 else 0 := by
  induction l with
  | nil => simp [entriesOf, countRuns]
  | cons a rest ih =>
    obtain ⟨ha, hrest⟩ := List.nodup_cons.mp hnd
    obtain ⟨r, hla, hs⟩ := hall a (List.mem_cons_self a rest)
    have ih' := ih hrest (fun o' ho' => hall o' (List.mem_cons_of_mem _ ho'))
    simp only [entriesOf, hla, if_pos hs, countRuns]
    rw [ih']
    by_cases hoa : a = o
    · subst hoa
      rw [if_pos rfl, if_pos (List.mem_cons_self a rest), if_neg ha]
    · have hne : ¬(o = a) := fun e => hoa e.symm
      rw [if_neg hoa]
      by_cases hm : o ∈ rest
      · rw [if_pos hm, if_pos (List.mem_cons_of_mem _ hm)]
      · rw [if_neg hm, if_neg (fun hh => hm (List.mem_cons.mp hh |>.resolve_left hne))]

end Elemental
namespace Elemental

theorem entriesOf_cons_some (st : St) (o : Nat) (rest : List Nat)
    (r : ObsRec) (hl : lookupObs st o = some r) :
    entriesOf st (o :: rest) =
      if r.state = OState.idle
      then (o, r.thisV, r.argsV) :: entriesOf st rest
      else entriesOf st rest := by
  simp only [entriesOf, hl]

theorem entriesOf_cons_none (st : St) (o : Nat) (rest : List Nat)
    (hl : lookupObs st o = none) :
    entriesOf st (o :: rest) = entriesOf st rest := by
  simp only [entriesOf, hl]

/-- Draining a de-duplicated queue of observers whose bodies are all
read-only: no errors are collected, every queued idle observer runs exactly
once (the run log grows by `entriesOf` of the queue, in order), observers
outside the queue are untouched, and heap, depth, stack and flags are
unchanged. -/
theorem drainAll_readonly :
    ∀ fuel (st : St) errs st',
      (∀ o r, lookupObs st o = some r → ReadOnly r.body = true) →
      st.pending.Nodup →
      drainAll fuel st = some (errs, st') →
      errs = [] ∧ st'.pending = [] ∧
      st'.heap = st.heap ∧ st'.depth = st.depth ∧ st'.stack = st.stack ∧
      st'.hidden = st.hidden ∧ st'.draining = st.draining ∧
      st'.trace = st.trace ++ entriesOf st st.pending ∧
      (∀ o, o ∉ st.pending → lookupObs st' o = lookupObs st o) ∧
      (∀ o r, lookupObs st' o = some r → ReadOnly r.body = true) := by
  intro fuel
  induction fuel with
  | zero =>
    intro st errs st' hb hnd h
    simp only [drainAll] at h
    split at h
    next hp =>
      simp only [Option.some.injEq, Prod.mk.injEq] at h
      obtain ⟨h₁, h₂⟩ := h
      subst h₂
      refine ⟨h₁.symm, hp, rfl, rfl, rfl, rfl, rfl, ?_, fun o _ => rfl, hb⟩
      rw [hp]
      simp [entriesOf]
    next => simp at h
  | succ n ih =>
    intro st errs st' hb hnd h
    simp only [drainAll] at h
    split at h
    next hp =>
      simp only [Option.some.injEq, Prod.mk.injEq] at h
      obtain ⟨h₁, h₂⟩ := h
      subst h₂
      refine ⟨h₁.symm, hp, rfl, rfl, rfl, rfl, rfl, ?_, fun o _ => rfl, hb⟩
      rw [hp]
      simp [entriesOf]
    next oid rest hp =>
      have hnd' : (oid :: rest).Nodup := hp ▸ hnd
      obtain ⟨hoid, hrest⟩ := List.nodup_cons.mp hnd'
      split at h
      next hl =>
        -- the queued id has no observer record: it is skipped
        obtain ⟨e1, e2, e3, e4, e5, e6, e7, e8, e9, e10⟩ :=
          ih { st with pending := rest } errs st' hb hrest h
        refine ⟨e1, e2, e3, e4, e5, e6, e7, ?_, ?_, e10⟩
        · rw [e8, hp]
          have : entriesOf { st with pending := rest } rest = entriesOf st rest :=
            entriesOf_congr st _ rest (fun o _ => rfl)
          rw [this, entriesOf_cons_none st oid rest (show lookupObs st oid = none from hl)]
        · intro o ho
          have : o ∉ rest := fun hm => ho (hp ▸ List.mem_cons_of_mem _ hm)
          exact e9 o this
      next rec hl =>
        split at h
        next hidle =>
          -- idle: the observer runs, then the rest of the queue drains
          split at h
          next => simp at h
          next errOpt st₂ hrun =>
            split at h
            next => simp at h
            next errs₂ st₃ hdrain =>
              have hb₁ : ReadOnly rec.body = true := hb oid rec hl
              obtain ⟨r0, r1, r2, r3, r4, r5, r6, r7, ⟨v, r8⟩, r9⟩ :=
                runObs_readonly n oid { st with pending := rest } rec errOpt st₂
                  hl hb₁ hrun
              have hb₂ : ∀ o r, lookupObs st₂ o = some r → ReadOnly r.body = true := by
                intro o r hor
                by_cases hoe : o = oid
                · subst hoe
                  rw [r8] at hor
                  simp only [Option.some.injEq] at hor
                  rw [← hor]
                  exact hb₁
                · rw [r9 o hoe] at hor
                  exact hb o r hor
              have hnd₂ : st₂.pending.Nodup := by rw [r2]; exact hrest
              obtain ⟨e1, e2, e3, e4, e5, e6, e7, e8, e9, e10⟩ :=
                ih st₂ errs₂ st₃ hb₂ hnd₂ hdrain
              simp only [Option.some.injEq, Prod.mk.injEq] at h
              obtain ⟨h₁, h₂⟩ := h
              subst h₂
              subst r0
              refine ⟨by simpa using h₁.symm ▸ e1, e2, e3.trans r1, e4.trans r4,
                e5.trans r5, e6.trans r6, e7.trans r7, ?_, ?_, e10⟩
              · rw [e8, r3]
                have hcong : entriesOf st₂ st₂.pending = entriesOf st rest := by
                  rw [r2]
                  apply entriesOf_congr
                  intro o ho
                  exact r9 o (fun he => hoid (he ▸ ho))
                rw [hcong, hp]
                rw [entriesOf_cons_some st oid rest rec
                  (show lookupObs st oid = some rec from hl), if_pos hidle]
                rw [List.append_assoc]
                rfl
              · intro o ho
                have ho₁ : o ≠ oid := fun he => ho (hp ▸ (he ▸ List.mem_cons_self oid rest))
                have ho₂ : o ∉ rest := fun hm => ho (hp ▸ List.mem_cons_of_mem _ hm)
                have := e9 o (by rw [r2]; exact ho₂)
                rw [this]
                exact r9 o ho₁
        next hidle =>
          -- not idle (stopped): skipped
          obtain ⟨e1, e2, e3, e4, e5, e6, e7, e8, e9, e10⟩ :=
            ih { st with pending := rest } errs st' hb hrest h
          refine ⟨e1, e2, e3, e4, e5, e6, e7, ?_, ?_, e10⟩
          · rw [e8, hp]
            have : entriesOf { st with pending := rest } rest = entriesOf st rest :=
              entriesOf_congr st _ rest (fun o _ => rfl)
            rw [this, entriesOf_cons_some st oid rest rec
              (show lookupObs st oid = some rec from hl), if_neg hidle]
          · intro o ho
            have : o ∉ rest := fun hm => ho (hp ▸ List.mem_cons_of_mem _ hm)
            exact e9 o this

end Elemental
namespace Elemental

theorem drainAll_nilPending (fuel : Nat) (st : St) (h : st.pending = []) :
    drainAll fuel st = some ([], st) := by
  cases fuel with
  | zero => simp [drainAll, h]
  | succ n => simp [drainAll, h]

theorem setTrap_subs (st : St) (src : Nat) (key : String) (v : Val) :
    (setTrapPure st src key v).2.subs = st.subs := by
  simp only [setTrapPure]
  split <;> rfl

theorem setTrap_obs (st : St) (src : Nat) (key : String) (v : Val) :
    (setTrapPure st src key v).2.obs = st.obs := by
  simp only [setTrapPure]
  split <;> rfl

theorem setTrap_trace (st : St) (src : Nat) (key : String) (v : Val) :
    (setTrapPure st src key v).2.trace = st.trace := by
  simp only [setTrapPure]
  split <;> rfl

theorem setTrap_depth (st : St) (src : Nat) (key : String) (v : Val) :
    (setTrapPure st src key v).2.depth = st.depth := by
  simp only [setTrapPure]
  split <;> rfl

theorem setTrap_stack (st : St) (src : Nat) (key : String) (v : Val) :
    (setTrapPure st src key v).2.stack = st.stack := by
  simp only [setTrapPure]
  split <;> rfl

theorem setTrap_hidden (st : St) (src : Nat) (key : String) (v : Val) :
    (setTrapPure st src key v).2.hidden = st.hidden := by
  simp only [setTrapPure]
  split <;> rfl

theorem setTrap_draining (st : St) (src : Nat) (key : String) (v : Val) :
    (setTrapPure st src key v).2.draining = st.draining := by
  simp only [setTrapPure]
  split <;> rfl

theorem setTrap_heap (st : St) (src : Nat) (key : String) (v : Val) :
    (setTrapPure st src key v).2.heap = assign st.heap src key v := by
  simp only [setTrapPure]
  split <;> rfl

theorem collectInto_subs_congr (st₁ st₂ : St) (h : st₁.subs = st₂.subs) :
    ∀ cells acc, collectInto st₁ acc cells = collectInto st₂ acc cells := by
  intro cells
  induction cells with
  | nil => intro acc; rfl
  | cons c cs ih =>
    intro acc
    simp only [collectInto]
    rw [show subsOf st₁ c = subsOf st₂ c from by rw [subsOf, subsOf, h]]
    exact ih _

theorem setTrap_pending_empty (st : St) (src : Nat) (key : String) (v : Val)
    (hq : st.pending = []) :
    (setTrapPure st src key v).2.pending
      = collectSubs st (setTrapPure st src key v).1 := by
  have key2 : ∀ cells : List Cell,
      (notifyCells { st with heap := assign st.heap src key v } cells).pending
        = collectSubs st cells := by
    intro cells
    show collectInto { st with heap := assign st.heap src key v } st.pending cells
      = collectSubs st cells
    rw [hq, collectSubs]
    exact collectInto_subs_congr
      { st with heap := assign st.heap src key v, pending := [] } st rfl cells []
  simp only [setTrapPure]
  split
  · exact hq
  · exact key2 _

/-- When the post-assignment state is observably unchanged, the `set` trap
reports no changed cells. -/
theorem setTrapPure_noChange (st : St) (src : Nat) (key : String) (v : Val)
    (hv : heapGetRaw (assign st.heap src key v) src key
        = heapGetRaw st.heap src key)
    (hk : keySetEq (heapKeys (assign st.heap src key v) src)
        (heapKeys st.heap src) = true)
    (hh : containsD (heapKeys (assign st.heap src key v) src) key
        = containsD (heapKeys st.heap src) key) :
    setTrapPure st src key v
      = ([], { st with heap := assign st.heap src key v }) := by
  simp only [setTrapPure]
  rw [if_pos ⟨hv, hk, hh⟩]

end Elemental
namespace Elemental

theorem finishDrain_nilPending (fuel : Nat) (v : Val) (st₀ : St)
    (h0 : st₀.pending = []) :
    finishDrain v (drainAll fuel st₀) = some (.ok v, { st₀ with draining := false }) := by
  rw [drainAll_nilPending fuel st₀ h0]
  rfl

/-- C1: a write whose post-assignment effective value is strictly equal to
the old value, whose own-key set is unchanged (as a set) and whose key
existence is unchanged, reports no changed cells and emits no
notifications: starting from a state with an empty pending queue, the write
succeeds and leaves the run log, the observer records, the whole
subscription registry and the pending queue untouched, so no observer
subscribed to the value cell, the HAS(key) cell or the OWN_KEYS cell
re-runs. -/
theorem c1_noChange_write_silent
    (fuel : Nat) (st : St) (src : Nat) (key : String) (v : Val)
    (hq : st.pending = [])
    (hv : heapGetRaw (assign st.heap src key v) src key
        = heapGetRaw st.heap src key)
    (hk : keySetEq (heapKeys (assign st.heap src key v) src)
        (heapKeys st.heap src) = true)
    (hh : containsD (heapKeys (assign st.heap src key v) src) key
        = containsD (heapKeys st.heap src) key) :
    (setTrapPure st src key v).1 = [] ∧
    ∀ r st', interp (fuel + 1) (.writeP src key v) st = some (r, st') →
      r = .ok v ∧ st'.trace = st.trace ∧ st'.obs = st.obs ∧
      st'.subs = st.subs ∧ st'.pending = [] ∧
      st'.heap = assign st.heap src key v := by
  have hset := setTrapPure_noChange st src key v hv hk hh
  have hpnil : (setTrapPure st src key v).2.pending = [] := by
    rw [hset]; exact hq
  constructor
  · rw [hset]
  · intro r st' h
    simp only [interp] at h
    have hpend : ({ (setTrapPure st src key v).2 with draining := true } : St).pending
        = [] := hpnil
    by_cases hc : st.depth = 0 ∧ st.draining = false
    · have hcond : (setTrapPure st src key v).2.depth = 0 ∧
          (setTrapPure st src key v).2.draining = false := by
        rw [setTrap_depth, setTrap_draining]; exact hc
      rw [if_pos hcond,
        finishDrain_nilPending fuel v _ hpend] at h
      simp only [Option.some.injEq, Prod.mk.injEq] at h
      obtain ⟨h₁, h₂⟩ := h
      subst h₂
      exact ⟨h₁.symm, setTrap_trace st src key v, setTrap_obs st src key v,
        setTrap_subs st src key v, hpnil, setTrap_heap st src key v⟩
    · have hcond : ¬((setTrapPure st src key v).2.depth = 0 ∧
          (setTrapPure st src key v).2.draining = false) := by
        rw [setTrap_depth, setTrap_draining]; exact hc
      rw [if_neg hcond] at h
      simp only [Option.some.injEq, Prod.mk.injEq] at h
      obtain ⟨h₁, h₂⟩ := h
      subst h₂
      exact ⟨h₁.symm, setTrap_trace st src key v, setTrap_obs st src key v,
        setTrap_subs st src key v, hpnil, setTrap_heap st src key v⟩

end Elemental
namespace Elemental

/-- C6: after a write-and-drain cycle from a quiescent state (empty queue,
zero batch depth, no drain in progress, every registered observer idle with
a read-only body), the de-duplicated set of observers subscribed to the
cells the write changed — several cells of one observer collapse to one
entry — is appended to the run log exactly once each: every observer whose
last run subscribed it to a changed cell re-executes exactly once, and
every other observer does not run.  Observers that read only under `hide`
hold no subscriptions, so they are among the latter. -/
theorem c6_write_drain_exactly_once
    (fuel : Nat) (st : St) (src : Nat) (key : String) (v : Val)
    (res : Except RErr Val) (st' : St)
    (hq : st.pending = []) (hd : st.depth = 0) (hdr : st.draining = false)
    (hb : ∀ o r, lookupObs st o = some r →
      ReadOnly r.body = true ∧ r.state = OState.idle)
    (hwf : ∀ o, o ∈ collectSubs st (setTrapPure st src key v).1 →
      ∃ r, lookupObs st o = some r)
    (h : interp (fuel + 1) (.writeP src key v) st = some (res, st')) :
    res = .ok v ∧
    (collectSubs st (setTrapPure st src key v).1).Nodup ∧
    st'.trace = st.trace
      ++ entriesOf st (collectSubs st (setTrapPure st src key v).1) ∧
    ∀ o, countRuns o st'.trace =
      countRuns o st.trace +
        (if o ∈ collectSubs st (setTrapPure st src key v).1 then 1 else 0) := by
  simp only [interp] at h
  have hcond : (setTrapPure st src key v).2.depth = 0 ∧
      (setTrapPure st src key v).2.draining = false := by
    rw [setTrap_depth, setTrap_draining]; exact ⟨hd, hdr⟩
  rw [if_pos hcond] at h
  cases hdall : drainAll fuel { (setTrapPure st src key v).2 with draining := true } with
  | none => rw [hdall] at h; simp [finishDrain] at h
  | some pr =>
    obtain ⟨errs, st₃⟩ := pr
    rw [hdall] at h
    have hobs : ({ (setTrapPure st src key v).2 with draining := true } : St).obs
        = st.obs := setTrap_obs st src key v
    have hb' : ∀ o r,
        lookupObs { (setTrapPure st src key v).2 with draining := true } o = some r →
        ReadOnly r.body = true := by
      intro o r hor
      have hor' : lookupObs st o = some r := by
        show lookupA st.obs o = some r
        rw [← hobs]
        exact hor
      exact (hb o r hor').1
    have hpend : ({ (setTrapPure st src key v).2 with draining := true } : St).pending
        = collectSubs st (setTrapPure st src key v).1 :=
      setTrap_pending_empty st src key v hq
    have hnd : ({ (setTrapPure st src key v).2 with draining := true } : St).pending.Nodup := by
      rw [hpend]; exact collectSubs_nodup st _
    obtain ⟨e1, e2, e3, e4, e5, e6, e7, e8, e9, e10⟩ :=
      drainAll_readonly fuel _ errs st₃ hb' hnd hdall
    subst e1
    simp only [finishDrain, aggregate, Option.some.injEq, Prod.mk.injEq] at h
    obtain ⟨h₁, h₂⟩ := h
    subst h₂
    have hlook : ∀ o,
        lookupObs { (setTrapPure st src key v).2 with draining := true } o
          = lookupObs st o := by
      intro o
      show lookupA ({ (setTrapPure st src key v).2 with draining := true } : St).obs o
        = lookupA st.obs o
      rw [hobs]
    have htr : st₃.trace = st.trace
        ++ entriesOf st (collectSubs st (setTrapPure st src key v).1) := by
      rw [e8, hpend]
      rw [entriesOf_congr st { (setTrapPure st src key v).2 with draining := true } _
        (fun o _ => hlook o)]
      rw [show ({ (setTrapPure st src key v).2 with draining := true } : St).trace
        = st.trace from setTrap_trace st src key v]
    have hall : ∀ o, o ∈ collectSubs st (setTrapPure st src key v).1 →
        ∃ r, lookupObs st o = some r ∧ r.state = OState.idle := by
      intro o ho
      obtain ⟨r, hr⟩ := hwf o ho
      exact ⟨r, hr, (hb o r hr).2⟩
    refine ⟨h₁.symm, collectSubs_nodup st _, htr, ?_⟩
    intro o
    have : (({ st₃ with draining := false }) : St).trace = st₃.trace := rfl
    rw [this, htr, countRuns_append,
      countRuns_entriesOf st _ (collectSubs_nodup st _) hall o]

end Elemental
namespace Elemental

theorem deleteTrap_subs (st : St) (src : Nat) (key : String) :
    (deleteTrapPure st src key).2.subs = st.subs := by
  simp only [deleteTrapPure]
  split <;> rfl

theorem deleteTrap_obs (st : St) (src : Nat) (key : String) :
    (deleteTrapPure st src key).2.obs = st.obs := by
  simp only [deleteTrapPure]
  split <;> rfl

theorem deleteTrap_trace (st : St) (src : Nat) (key : String) :
    (deleteTrapPure st src key).2.trace = st.trace := by
  simp only [deleteTrapPure]
  split <;> rfl

theorem deleteTrap_depth (st : St) (src : Nat) (key : String) :
    (deleteTrapPure st src key).2.depth = st.depth := by
  simp only [deleteTrapPure]
  split <;> rfl

theorem deleteTrap_stack (st : St) (src : Nat) (key : String) :
    (deleteTrapPure st src key).2.stack = st.stack := by
  simp only [deleteTrapPure]
  split <;> rfl

theorem deleteTrap_hidden (st : St) (src : Nat) (key : String) :
    (deleteTrapPure st src key).2.hidden = st.hidden := by
  simp only [deleteTrapPure]
  split <;> rfl

theorem deleteTrap_draining (st : St) (src : Nat) (key : String) :
    (deleteTrapPure st src key).2.draining = st.draining := by
  simp only [deleteTrapPure]
  split <;> rfl

/-- Programs whose effects are only deferred while inside a batch: writes,
deletes, nested batches and their sequencing. -/
def DeferredOnly : Prog → Bool
  | .skip => true
  | .lit _ => true
  | .seq a b => DeferredOnly a && DeferredOnly b
  | .writeP _ _ _ => true
  | .deleteP _ _ => true
  | .batchP p => DeferredOnly p
  | _ => false

/-- While the batch depth is positive, a program of writes, deletes and
nested batches succeeds, runs no observer (the run log and observer records
are untouched), creates no subscriptions, and restores the depth: inner
batch exits do not drain. -/
theorem interp_deferred (p : Prog) :
    ∀ fuel (st : St) r st', DeferredOnly p = true → 1 ≤ st.depth →
      interp fuel p st = some (r, st') →
      (∃ v, r = Except.ok v) ∧ st'.trace = st.trace ∧ st'.obs = st.obs ∧
      st'.subs = st.subs ∧ st'.depth = st.depth ∧ st'.stack = st.stack ∧
      st'.hidden = st.hidden ∧ st'.draining = st.draining := by
  induction p with
  | skip =>
    intro fuel st r st' hro hd h
    cases fuel with
    | zero => simp [interp] at h
    | succ n =>
      simp only [interp, Option.some.injEq, Prod.mk.injEq] at h
      obtain ⟨h₁, h₂⟩ := h
      subst h₂
      exact ⟨⟨_, h₁.symm⟩, rfl, rfl, rfl, rfl, rfl, rfl, rfl⟩
  | lit v =>
    intro fuel st r st' hro hd h
    cases fuel with
    | zero => simp [interp] at h
    | succ n =>
      simp only [interp, Option.some.injEq, Prod.mk.injEq] at h
      obtain ⟨h₁, h₂⟩ := h
      subst h₂
      exact ⟨⟨_, h₁.symm⟩, rfl, rfl, rfl, rfl, rfl, rfl, rfl⟩
  | seq a b iha ihb =>
    intro fuel st r st' hro hd h
    simp only [DeferredOnly, Bool.and_eq_true] at hro
    cases fuel with
    | zero => simp [interp] at h
    | succ n =>
      simp only [interp] at h
      cases ha : interp n a st with
      | none => rw [ha] at h; simp at h
      | some q =>
        obtain ⟨ra, st₁⟩ := q
        rw [ha] at h
        cases ra with
        | error e =>
          obtain ⟨⟨v, hv⟩, -⟩ := iha n st (.error e) st₁ hro.1 hd ha
          simp at hv
        | ok va =>
          obtain ⟨-, a2, a3, a4, a5, a6, a7, a8⟩ := iha n st (.ok va) st₁ hro.1 hd ha
          have hd₁ : 1 ≤ st₁.depth := a5 ▸ hd
          obtain ⟨b1, b2, b3, b4, b5, b6, b7, b8⟩ := ihb n st₁ r st' hro.2 hd₁ h
          exact ⟨b1, b2.trans a2, b3.trans a3, b4.trans a4, b5.trans a5,
            b6.trans a6, b7.trans a7, b8.trans a8⟩
  | readP src key => intro fuel st r st' hro hd h; simp [DeferredOnly] at hro
  | hasP src key => intro fuel st r st' hro hd h; simp [DeferredOnly] at hro
  | keysP src => intro fuel st r st' hro hd h; simp [DeferredOnly] at hro
  | writeP src key v =>
    intro fuel st r st' hro hd h
    cases fuel with
    | zero => simp [interp] at h
    | succ n =>
      simp only [interp] at h
      have hcond : ¬((setTrapPure st src key v).2.depth = 0 ∧
          (setTrapPure st src key v).2.draining = false) := by
        rw [setTrap_depth, setTrap_draining]
        rintro ⟨h0, -⟩
        omega
      rw [if_neg hcond] at h
      simp only [Option.some.injEq, Prod.mk.injEq] at h
      obtain ⟨h₁, h₂⟩ := h
      subst h₂
      exact ⟨⟨_, h₁.symm⟩, setTrap_trace st src key v, setTrap_obs st src key v,
        setTrap_subs st src key v, setTrap_depth st src key v,
        setTrap_stack st src key v, setTrap_hidden st src key v,
        setTrap_draining st src key v⟩
  | writeFromRead dst dk src sk =>
    intro fuel st r st' hro hd h; simp [DeferredOnly] at hro
  | deleteP src key =>
    intro fuel st r st' hro hd h
    cases fuel with
    | zero => simp [interp] at h
    | succ n =>
      simp only [interp] at h
      have hcond : ¬((deleteTrapPure st src key).2.depth = 0 ∧
          (deleteTrapPure st src key).2.draining = false) := by
        rw [deleteTrap_depth, deleteTrap_draining]
        rintro ⟨h0, -⟩
        omega
      rw [if_neg hcond] at h
      simp only [Option.some.injEq, Prod.mk.injEq] at h
      obtain ⟨h₁, h₂⟩ := h
      subst h₂
      exact ⟨⟨_, h₁.symm⟩, deleteTrap_trace st src key, deleteTrap_obs st src key,
        deleteTrap_subs st src key, deleteTrap_depth st src key,
        deleteTrap_stack st src key, deleteTrap_hidden st src key,
        deleteTrap_draining st src key⟩
  | hideP q ihq => intro fuel st r st' hro hd h; simp [DeferredOnly] at hro
  | batchP q ihq =>
    intro fuel st r st' hro hd h
    simp only [DeferredOnly] at hro
    cases fuel with
    | zero => simp [interp] at h
    | succ n =>
      simp only [interp] at h
      cases hq : interp n q { st with depth := st.depth + 1 } with
      | none => rw [hq] at h; simp at h
      | some pr =>
        obtain ⟨rq, st₁⟩ := pr
        simp only [hq] at h
        cases rq with
        | error e =>
          obtain ⟨⟨v, hv⟩, -⟩ := ihq n { st with depth := st.depth + 1 }
            (.error e) st₁ hro (by show 1 ≤ st.depth + 1; omega) hq
          simp at hv
        | ok vq =>
          obtain ⟨-, a2, a3, a4, a5, a6, a7, a8⟩ := ihq n
            { st with depth := st.depth + 1 } (.ok vq) st₁ hro
            (by show 1 ≤ st.depth + 1; omega) hq
          have ha5 : st₁.depth = st.depth + 1 := a5
          have hcond : ¬(st₁.depth - 1 = 0 ∧ st₁.draining = false) := by
            rintro ⟨h0, -⟩
            omega
          have h2 : (if st₁.depth - 1 = 0 ∧ st₁.draining = false then
              finishDrain vq (drainAll n
                { st₁ with depth := st₁.depth - 1, draining := true })
            else some (.ok vq, { st₁ with depth := st₁.depth - 1 }))
              = some (r, st') := h
          rw [if_neg hcond] at h2
          simp only [Option.some.injEq, Prod.mk.injEq] at h2
          obtain ⟨h₁, h₂⟩ := h2
          subst h₂
          refine ⟨⟨_, h₁.symm⟩, a2, a3, a4, ?_, a6, a7, a8⟩
          show st₁.depth - 1 = st.depth
          omega
  | throwP msg => intro fuel st r st' hro hd h; simp [DeferredOnly] at hro
  | ifEq src key v thn ihthn =>
    intro fuel st r st' hro hd h; simp [DeferredOnly] at hro
  | startP oid => intro fuel st r st' hro hd h; simp [DeferredOnly] at hro

end Elemental
namespace Elemental

/-- C3: batching defers all notifications produced by writes inside the
batched program — while the depth is positive no observer runs and no
observer record changes — the batch passes through its body's result, and
nested batches compose: a batch exiting to a still-positive depth performs
no drain at all, so only the outermost exit drains the queue.  On the two
batching test scenarios, the single observer affected by three (resp. six,
across two nesting levels) writes re-runs exactly once, after the batched
program has returned, and ends holding the last written value. -/
theorem c3_batch_defers_and_coalesces :
    (∀ p fuel (st : St) r st', DeferredOnly p = true → 1 ≤ st.depth →
        interp fuel p st = some (r, st') →
        (∃ v, r = Except.ok v) ∧ st'.trace = st.trace ∧ st'.obs = st.obs) ∧
    (∀ q fuel (st : St) v st₁, DeferredOnly q = true → 1 ≤ st.depth →
        interp fuel q { st with depth := st.depth + 1 } = some (.ok v, st₁) →
        interp (fuel + 1) (.batchP q) st
          = some (.ok v, { st₁ with depth := st₁.depth - 1 })) ∧
    valOf batchRun = some (.str "blarp") ∧
    (stateOf batchRun).map St.trace
      = some [(1, .undefined, []), (1, .undefined, [])] ∧
    (stateOf batchRun).map (fun s => (lookupObs s 1).map ObsRec.value)
      = some (some (.str "blarp")) ∧
    valOf nestedBatchRun = some (.str "bup") ∧
    (stateOf nestedBatchRun).map St.trace
      = some [(1, .undefined, []), (1, .undefined, [])] ∧
    (stateOf nestedBatchRun).map (fun s => (lookupObs s 1).map ObsRec.value)
      = some (some (.str "bup")) := by
  refine ⟨?_, ?_, ?_, ?_, ?_, ?_, ?_, ?_⟩
  · intro p fuel st r st' h1 h2 h3
    obtain ⟨e1, e2, e3, -⟩ := interp_deferred p fuel st r st' h1 h2 h3
    exact ⟨e1, e2, e3⟩
  · intro q fuel st v st₁ h1 h2 h3
    obtain ⟨-, -, -, -, a5, -, -, -⟩ := interp_deferred q fuel _ (.ok v) st₁ h1
      (by show 1 ≤ st.depth + 1; omega) h3
    have ha5 : st₁.depth = st.depth + 1 := a5
    have hcond : ¬(st₁.depth - 1 = 0 ∧ st₁.draining = false) := by
      rintro ⟨h0, -⟩
      omega
    simp only [interp, h3]
    have hfin : (if st₁.depth - 1 = 0 ∧ st₁.draining = false then
        finishDrain v (drainAll fuel { st₁ with depth := st₁.depth - 1, draining := true })
      else some (Except.ok v, { st₁ with depth := st₁.depth - 1 }))
        = some (Except.ok v, { st₁ with depth := st₁.depth - 1 }) := by
      rw [if_neg hcond]
    exact hfin
  · simp [batchRun, batchSt, batchProg, andThen, invokeObs, interp, drainAll,
      runObs, readStep, hasStep, keysStep, setTrapPure, deleteTrapPure,
      maybeSubscribe, subscribe, subsOf, unsubscribeAll, unsubAllList,
      removeObs, dedupAppend, collectInto, collectSubs, notifyCells,
      heapGetRaw, heapKeys, assign, heapDelete, removeKey, containsD, subsetK,
      keySetEq, lookupA, setA, lookupObs, setObs, setObsState, stopObs,
      finishDrain, aggregate, flattenOnce, wrapVal, reactorCtor, mkObs,
      St.init, valOf, stateOf, errOf, startTop, setExecuteTop, execOf,
      countRuns]
  · simp [batchRun, batchSt, batchProg, andThen, invokeObs, interp, drainAll,
      runObs, readStep, hasStep, keysStep, setTrapPure, deleteTrapPure,
      maybeSubscribe, subscribe, subsOf, unsubscribeAll, unsubAllList,
      removeObs, dedupAppend, collectInto, collectSubs, notifyCells,
      heapGetRaw, heapKeys, assign, heapDelete, removeKey, containsD, subsetK,
      keySetEq, lookupA, setA, lookupObs, setObs, setObsState, stopObs,
      finishDrain, aggregate, flattenOnce, wrapVal, reactorCtor, mkObs,
      St.init, valOf, stateOf, errOf, startTop, setExecuteTop, execOf,
      countRuns]
  · simp [batchRun, batchSt, batchProg, andThen, invokeObs, interp, drainAll,
      runObs, readStep, hasStep, keysStep, setTrapPure, deleteTrapPure,
      maybeSubscribe, subscribe, subsOf, unsubscribeAll, unsubAllList,
      removeObs, dedupAppend, collectInto, collectSubs, notifyCells,
      heapGetRaw, heapKeys, assign, heapDelete, removeKey, containsD, subsetK,
      keySetEq, lookupA, setA, lookupObs, setObs, setObsState, stopObs,
      finishDrain, aggregate, flattenOnce, wrapVal, reactorCtor, mkObs,
      St.init, valOf, stateOf, errOf, startTop, setExecuteTop, execOf,
      countRuns]
  · simp [nestedBatchRun, batchSt, nestedBatchProg, andThen, invokeObs, interp,
      drainAll, runObs, readStep, hasStep, keysStep, setTrapPure,
      deleteTrapPure, maybeSubscribe, subscribe, subsOf, unsubscribeAll,
      unsubAllList, removeObs, dedupAppend, collectInto, collectSubs,
      notifyCells, heapGetRaw, heapKeys, assign, heapDelete, removeKey,
      containsD, subsetK, keySetEq, lookupA, setA, lookupObs, setObs,
      setObsState, stopObs, finishDrain, aggregate, flattenOnce, wrapVal,
      reactorCtor, mkObs, St.init, valOf, stateOf, errOf, startTop,
      setExecuteTop, execOf, countRuns]
  · simp [nestedBatchRun, batchSt, nestedBatchProg, andThen, invokeObs, interp,
      drainAll, runObs, readStep, hasStep, keysStep, setTrapPure,
      deleteTrapPure, maybeSubscribe, subscribe, subsOf, unsubscribeAll,
      unsubAllList, removeObs, dedupAppend, collectInto, collectSubs,
      notifyCells, heapGetRaw, heapKeys, assign, heapDelete, removeKey,
      containsD, subsetK, keySetEq, lookupA, setA, lookupObs, setObs,
      setObsState, stopObs, finishDrain, aggregate, flattenOnce, wrapVal,
      reactorCtor, mkObs, St.init, valOf, stateOf, errOf, startTop,
      setExecuteTop, execOf, countRuns]
  · simp [nestedBatchRun, batchSt, nestedBatchProg, andThen, invokeObs, interp,
      drainAll, runObs, readStep, hasStep, keysStep, setTrapPure,
      deleteTrapPure, maybeSubscribe, subscribe, subsOf, unsubscribeAll,
      unsubAllList, removeObs, dedupAppend, collectInto, collectSubs,
      notifyCells, heapGetRaw, heapKeys, assign, heapDelete, removeKey,
      containsD, subsetK, keySetEq, lookupA, setA, lookupObs, setObs,
      setObsState, stopObs, finishDrain, aggregate, flattenOnce, wrapVal,
      reactorCtor, mkObs, St.init, valOf, stateOf, errOf, startTop,
      setExecuteTop, execOf, countRuns]

end Elemental
namespace Elemental

theorem subs_maybeSubscribe_hidden (st : St) (c : Cell) (h : st.hidden = true) :
    (maybeSubscribe st c).subs = st.subs := by
  unfold maybeSubscribe
  cases hs : st.stack with
  | nil => rfl
  | cons o rest =>
    show (if st.hidden = true then st else subscribe st o c).subs = st.subs
    rw [if_pos h]

theorem subs_reactorCtor (st : St) (s : Nat) :
    (reactorCtor st s).2.subs = st.subs := by
  unfold reactorCtor
  cases h : lookupA st.wrapMap s <;> rfl

theorem subs_wrapVal (st : St) (v : Val) : (wrapVal st v).2.subs = st.subs := by
  cases v with
  | obj i => exact subs_reactorCtor st i
  | str s => rfl
  | num n => rfl
  | boolv b => rfl
  | undefined => rfl

theorem subs_readStep_hidden (st : St) (s : Nat) (k : String)
    (h : st.hidden = true) :
    (readStep st s k).2.subs = st.subs :=
  (subs_wrapVal _ _).trans (subs_maybeSubscribe_hidden st _ h)

/-- While the hidden flag is set, running a read-only program leaves the
subscription registry untouched: reads inside `hide` do not subscribe. -/
theorem interp_hidden_subs (p : Prog) :
    ∀ fuel (st : St) r st', ReadOnly p = true → st.hidden = true →
      interp fuel p st = some (r, st') →
      st'.subs = st.subs := by
  induction p with
  | skip =>
    intro fuel st r st' hro hh h
    cases fuel with
    | zero => simp [interp] at h
    | succ n =>
      simp only [interp, Option.some.injEq, Prod.mk.injEq] at h
      rw [← h.2]
  | lit v =>
    intro fuel st r st' hro hh h
    cases fuel with
    | zero => simp [interp] at h
    | succ n =>
      simp only [interp, Option.some.injEq, Prod.mk.injEq] at h
      rw [← h.2]
  | seq a b iha ihb =>
    intro fuel st r st' hro hh h
    simp only [ReadOnly, Bool.and_eq_true] at hro
    cases fuel with
    | zero => simp [interp] at h
    | succ n =>
      simp only [interp] at h
      cases ha : interp n a st with
      | none => rw [ha] at h; simp at h
      | some q =>
        obtain ⟨ra, st₁⟩ := q
        rw [ha] at h
        cases ra with
        | error e =>
          obtain ⟨⟨v, hv⟩, -⟩ := interp_readonly a n st (.error e) st₁ hro.1 ha
          simp at hv
        | ok va =>
          obtain ⟨-, hc⟩ := interp_readonly a n st (.ok va) st₁ hro.1 ha
          have hh₁ : st₁.hidden = true := hc.2.2.2.2.2.2.1.trans hh
          have e1 := iha n st (.ok va) st₁ hro.1 hh ha
          have e2 := ihb n st₁ r st' hro.2 hh₁ h
          exact e2.trans e1
  | readP src key =>
    intro fuel st r st' hro hh h
    cases fuel with
    | zero => simp [interp] at h
    | succ n =>
      simp only [interp, Option.some.injEq, Prod.mk.injEq] at h
      rw [← h.2]
      exact subs_readStep_hidden st src key hh
  | hasP src key =>
    intro fuel st r st' hro hh h
    cases fuel with
    | zero => simp [interp] at h
    | succ n =>
      simp only [interp, Option.some.injEq, Prod.mk.injEq] at h
      rw [← h.2]
      exact subs_maybeSubscribe_hidden st _ hh
  | keysP src =>
    intro fuel st r st' hro hh h
    cases fuel with
    | zero => simp [interp] at h
    | succ n =>
      simp only [interp, Option.some.injEq, Prod.mk.injEq] at h
      rw [← h.2]
      exact subs_maybeSubscribe_hidden st _ hh
  | writeP src key v => intro fuel st r st' hro hh h; simp [ReadOnly] at hro
  | writeFromRead dst dk src sk =>
    intro fuel st r st' hro hh h; simp [ReadOnly] at hro
  | deleteP src key => intro fuel st r st' hro hh h; simp [ReadOnly] at hro
  | hideP q ihq =>
    intro fuel st r st' hro hh h
    simp only [ReadOnly] at hro
    cases fuel with
    | zero => simp [interp] at h
    | succ n =>
      simp only [interp] at h
      cases hq : interp n q { st with hidden := true } with
      | none => rw [hq] at h; simp at h
      | some pr =>
        obtain ⟨rq, st₁⟩ := pr
        rw [hq] at h
        have h2 : some (rq, { st₁ with hidden := st.hidden })
            = some (r, st') := h
        simp only [Option.some.injEq, Prod.mk.injEq] at h2
        rw [← h2.2]
        exact ihq n { st with hidden := true } rq st₁ hro rfl hq
  | batchP q ihq => intro fuel st r st' hro hh h; simp [ReadOnly] at hro
  | throwP msg => intro fuel st r st' hro hh h; simp [ReadOnly] at hro
  | ifEq src key v thn ihthn =>
    intro fuel st r st' hro hh h
    simp only [ReadOnly] at hro
    cases fuel with
    | zero => simp [interp] at h
    | succ n =>
      simp only [interp] at h
      by_cases hv : (readStep st src key).1 = v
      · rw [if_pos hv] at h
        have hh₁ : (readStep st src key).2.hidden = st.hidden :=
          (coreEq_readStep st src key).2.2.2.2.2.2.1
        have e1 := ihthn n _ r st' hro (hh₁.trans hh) h
        exact e1.trans (subs_readStep_hidden st src key hh)
      · rw [if_neg hv] at h
        simp only [Option.some.injEq, Prod.mk.injEq] at h
        rw [← h.2]
        exact subs_readStep_hidden st src key hh
  | startP oid => intro fuel st r st' hro hh h; simp [ReadOnly] at hro

end Elemental
namespace Elemental

/-- C4: `hide(f)` runs its body with subscription-tracking suppressed and
returns the body's result (restoring the flag afterwards); when the body
only reads, the whole subscription registry is unchanged, so later mutation
of a cell read only inside `hide` re-runs nothing.  On the hide test
scenario: after the observer's first run the hidden `inner` cell has no
subscribers while the `outer` cell read outside `hide` has the observer
subscribed; writing `inner` does not re-run the observer; writing `outer`
re-runs it exactly once, which refreshes its value to the new inner
reading. -/
theorem c4_hide_suppresses_tracking :
    (∀ fuel q (st : St) r st₁,
        interp fuel q { st with hidden := true } = some (r, st₁) →
        interp (fuel + 1) (.hideP q) st
          = some (r, { st₁ with hidden := st.hidden })) ∧
    (∀ q fuel (st : St) r st', ReadOnly q = true →
        interp (fuel + 1) (.hideP q) st = some (r, st') →
        st'.subs = st.subs) ∧
    (stateOf hideRunA).map St.trace = some [(1, .undefined, [])] ∧
    (stateOf hideRunA).map (fun s => subsOf s (0, .prop "inner")) = some [] ∧
    (stateOf hideRunA).map (fun s => subsOf s (0, .prop "outer")) = some [1] ∧
    (stateOf hideRunA).map (fun s => (lookupObs s 1).map ObsRec.value)
      = some (some (.str "bar")) ∧
    (stateOf hideRunB).map St.trace
      = some [(1, .undefined, []), (1, .undefined, [])] ∧
    (stateOf hideRunB).map (fun s => (lookupObs s 1).map ObsRec.value)
      = some (some (.str "baz")) := by
  refine ⟨?_, ?_, ?_, ?_, ?_, ?_, ?_, ?_⟩
  · intro fuel q st r st₁ h3
    simp only [interp, h3]
  · intro q fuel st r st' hro h
    simp only [interp] at h
    cases hq : interp fuel q { st with hidden := true } with
    | none => rw [hq] at h; simp at h
    | some pr =>
      obtain ⟨rq, st₁⟩ := pr
      rw [hq] at h
      have h2 : some (rq, { st₁ with hidden := st.hidden })
          = some (r, st') := h
      simp only [Option.some.injEq, Prod.mk.injEq] at h2
      rw [← h2.2]
      exact interp_hidden_subs q fuel { st with hidden := true } rq st₁ hro rfl hq
  · simp [hideRunA, hideSt, andThen, invokeObs, interp, drainAll, runObs,
      readStep, hasStep, keysStep, setTrapPure, deleteTrapPure, maybeSubscribe,
      subscribe, subsOf, unsubscribeAll, unsubAllList, removeObs, dedupAppend,
      collectInto, collectSubs, notifyCells, heapGetRaw, heapKeys, assign,
      heapDelete, removeKey, containsD, subsetK, keySetEq, lookupA, setA,
      lookupObs, setObs, setObsState, stopObs, finishDrain, aggregate,
      flattenOnce, wrapVal, reactorCtor, mkObs, St.init, valOf, stateOf,
      errOf, startTop, setExecuteTop, execOf, countRuns]
  · simp [hideRunA, hideSt, andThen, invokeObs, interp, drainAll, runObs,
      readStep, hasStep, keysStep, setTrapPure, deleteTrapPure, maybeSubscribe,
      subscribe, subsOf, unsubscribeAll, unsubAllList, removeObs, dedupAppend,
      collectInto, collectSubs, notifyCells, heapGetRaw, heapKeys, assign,
      heapDelete, removeKey, containsD, subsetK, keySetEq, lookupA, setA,
      lookupObs, setObs, setObsState, stopObs, finishDrain, aggregate,
      flattenOnce, wrapVal, reactorCtor, mkObs, St.init, valOf, stateOf,
      errOf, startTop, setExecuteTop, execOf, countRuns]
  · simp [hideRunA, hideSt, andThen, invokeObs, interp, drainAll, runObs,
      readStep, hasStep, keysStep, setTrapPure, deleteTrapPure, maybeSubscribe,
      subscribe, subsOf, unsubscribeAll, unsubAllList, removeObs, dedupAppend,
      collectInto, collectSubs, notifyCells, heapGetRaw, heapKeys, assign,
      heapDelete, removeKey, containsD, subsetK, keySetEq, lookupA, setA,
      lookupObs, setObs, setObsState, stopObs, finishDrain, aggregate,
      flattenOnce, wrapVal, reactorCtor, mkObs, St.init, valOf, stateOf,
      errOf, startTop, setExecuteTop, execOf, countRuns]
  · simp [hideRunA, hideSt, andThen, invokeObs, interp, drainAll, runObs,
      readStep, hasStep, keysStep, setTrapPure, deleteTrapPure, maybeSubscribe,
      subscribe, subsOf, unsubscribeAll, unsubAllList, removeObs, dedupAppend,
      collectInto, collectSubs, notifyCells, heapGetRaw, heapKeys, assign,
      heapDelete, removeKey, containsD, subsetK, keySetEq, lookupA, setA,
      lookupObs, setObs, setObsState, stopObs, finishDrain, aggregate,
      flattenOnce, wrapVal, reactorCtor, mkObs, St.init, valOf, stateOf,
      errOf, startTop, setExecuteTop, execOf, countRuns]
  · simp [hideRunB, hideRunA, hideSt, andThen, invokeObs, interp, drainAll,
      runObs, readStep, hasStep, keysStep, setTrapPure, deleteTrapPure,
      maybeSubscribe, subscribe, subsOf, unsubscribeAll, unsubAllList,
      removeObs, dedupAppend, collectInto, collectSubs, notifyCells,
      heapGetRaw, heapKeys, assign, heapDelete, removeKey, containsD, subsetK,
      keySetEq, lookupA, setA, lookupObs, setObs, setObsState, stopObs,
      finishDrain, aggregate, flattenOnce, wrapVal, reactorCtor, mkObs,
      St.init, valOf, stateOf, errOf, startTop, setExecuteTop, execOf,
      countRuns]
  · simp [hideRunB, hideRunA, hideSt, andThen, invokeObs, interp, drainAll,
      runObs, readStep, hasStep, keysStep, setTrapPure, deleteTrapPure,
      maybeSubscribe, subscribe, subsOf, unsubscribeAll, unsubAllList,
      removeObs, dedupAppend, collectInto, collectSubs, notifyCells,
      heapGetRaw, heapKeys, assign, heapDelete, removeKey, containsD, subsetK,
      keySetEq, lookupA, setA, lookupObs, setObs, setObsState, stopObs,
      finishDrain, aggregate, flattenOnce, wrapVal, reactorCtor, mkObs,
      St.init, valOf, stateOf, errOf, startTop, setExecuteTop, execOf,
      countRuns]

end Elemental
namespace Elemental

theorem reactorCtor_eq_found (st : St) (s w : Nat)
    (h : lookupA st.wrapMap s = some w) :
    reactorCtor st s = (w, st) := by
  unfold reactorCtor
  rw [h]

theorem reactorCtor_eq_new (st : St) (s : Nat)
    (h : lookupA st.wrapMap s = none) :
    reactorCtor st s = (st.nextId,
      { st with wrapMap := setA st.wrapMap s st.nextId,
                srcMap := setA st.srcMap st.nextId s,
                nextId := st.nextId + 1 }) := by
  unfold reactorCtor
  rw [h]

theorem reactorCtor_found_after (st : St) (s : Nat) :
    lookupA (reactorCtor st s).2.wrapMap s = some (reactorCtor st s).1 := by
  cases h : lookupA st.wrapMap s with
  | some w => rw [reactorCtor_eq_found st s w h]; exact h
  | none =>
    rw [reactorCtor_eq_new st s h]
    exact lookupA_setA_self _ _ _

theorem wrapMap_subscribe (st : St) (oid : Nat) (c : Cell) :
    (subscribe st oid c).wrapMap = st.wrapMap := by
  unfold subscribe
  split <;> rfl

theorem wrapMap_maybeSubscribe (st : St) (c : Cell) :
    (maybeSubscribe st c).wrapMap = st.wrapMap := by
  unfold maybeSubscribe
  cases h : st.stack with
  | nil => rfl
  | cons o rest =>
    show (if st.hidden = true then st else subscribe st o c).wrapMap = st.wrapMap
    split
    · rfl
    · exact wrapMap_subscribe st o c

/-- The consistency of the canonical source↔wrapper maps: every recorded
wrapper points back to its source. -/
def WrapInv (st : St) : Prop :=
  ∀ s w, lookupA st.wrapMap s = some w → lookupA st.srcMap w = some s

/-- C5: constructing a Reactor over the same source twice yields the
identical wrapper and leaves the state unchanged the second time; `shuck`
of that wrapper returns exactly the source (under the map-consistency
invariant); and the same canonical mapping applies to objects reached
through property reads — reading the same inner object through two
different wrappers yields the same wrapped value. -/
theorem c5_canonical_wrapper_identity :
    (∀ (st : St) (s : Nat),
        reactorCtor (reactorCtor st s).2 s = reactorCtor st s) ∧
    (∀ (st : St) (s : Nat), WrapInv st →
        shuck (reactorCtor st s).2 (reactorCtor st s).1 = some s) ∧
    (∀ (st : St) (s₁ s₂ i : Nat) (k₁ k₂ : String),
        heapGetRaw st.heap s₁ k₁ = .obj i →
        heapGetRaw st.heap s₂ k₂ = .obj i →
        (readStep (readStep st s₁ k₁).2 s₂ k₂).1 = (readStep st s₁ k₁).1) := by
  refine ⟨?_, ?_, ?_⟩
  · intro st s
    cases h : lookupA st.wrapMap s with
    | some w =>
      rw [reactorCtor_eq_found st s w h]
      show reactorCtor st s = (w, st)
      exact reactorCtor_eq_found st s w h
    | none =>
      rw [reactorCtor_eq_new st s h]
      apply reactorCtor_eq_found
      exact lookupA_setA_self _ _ _
  · intro st s hinv
    cases h : lookupA st.wrapMap s with
    | some w =>
      rw [reactorCtor_eq_found st s w h]
      exact hinv s w h
    | none =>
      rw [reactorCtor_eq_new st s h]
      exact lookupA_setA_self _ _ _
  · intro st s₁ s₂ i k₁ k₂ h₁ h₂
    have hm1 : (maybeSubscribe st (s₁, AccessKey.prop k₁)).heap = st.heap :=
      (coreEq_maybeSubscribe st _).1
    have hr1 : heapGetRaw (maybeSubscribe st (s₁, AccessKey.prop k₁)).heap s₁ k₁
        = Val.obj i := by rw [hm1]; exact h₁
    have e1 : readStep st s₁ k₁
        = (.obj (reactorCtor (maybeSubscribe st (s₁, AccessKey.prop k₁)) i).1,
           (reactorCtor (maybeSubscribe st (s₁, AccessKey.prop k₁)) i).2) := by
      simp only [readStep]
      rw [hr1]
      rfl
    rw [e1]
    have hm2 : (maybeSubscribe
        (reactorCtor (maybeSubscribe st (s₁, AccessKey.prop k₁)) i).2
        (s₂, AccessKey.prop k₂)).heap = st.heap := by
      rw [(coreEq_maybeSubscribe _ _).1, (coreEq_reactorCtor _ _).1, hm1]
    have hr2 : heapGetRaw (maybeSubscribe
        (reactorCtor (maybeSubscribe st (s₁, AccessKey.prop k₁)) i).2
        (s₂, AccessKey.prop k₂)).heap s₂ k₂ = Val.obj i := by
      rw [hm2]; exact h₂
    have e2 : readStep (reactorCtor (maybeSubscribe st (s₁, AccessKey.prop k₁)) i).2 s₂ k₂
        = (.obj (reactorCtor (maybeSubscribe
            (reactorCtor (maybeSubscribe st (s₁, AccessKey.prop k₁)) i).2
            (s₂, AccessKey.prop k₂)) i).1,
           (reactorCtor (maybeSubscribe
            (reactorCtor (maybeSubscribe st (s₁, AccessKey.prop k₁)) i).2
            (s₂, AccessKey.prop k₂)) i).2) := by
      simp only [readStep]
      rw [hr2]
      rfl
    rw [e2]
    have hw : lookupA (maybeSubscribe
        (reactorCtor (maybeSubscribe st (s₁, AccessKey.prop k₁)) i).2
        (s₂, AccessKey.prop k₂)).wrapMap i
        = some (reactorCtor (maybeSubscribe st (s₁, AccessKey.prop k₁)) i).1 := by
      rw [wrapMap_maybeSubscribe]
      exact reactorCtor_found_after _ i
    rw [reactorCtor_eq_found _ i _ hw]

end Elemental
namespace Elemental

/-- `start()` on a stopped observer with a read-only body: one run happens,
recorded with the saved `this` and arguments, and the observer ends idle. -/
theorem startTop_stopped_readonly (fuel oid : Nat) (st : St) (rec : ObsRec)
    (r : Except RErr Val) (st' : St)
    (hrec : lookupObs st oid = some rec) (hstop : rec.state = OState.stopped)
    (hro : ReadOnly rec.body = true)
    (h : startTop fuel oid st = some (r, st')) :
    r = .ok .undefined ∧
    st'.trace = st.trace ++ [(oid, rec.thisV, rec.argsV)] ∧
    (∃ v, lookupObs st' oid
      = some { rec with state := OState.idle, value := v }) := by
  simp only [startTop, hrec] at h
  rw [if_pos hstop] at h
  cases hr : runObs fuel oid (setObsState st oid .idle) with
  | none => rw [hr] at h; simp at h
  | some pr =>
    obtain ⟨errOpt, st₂⟩ := pr
    simp only [hr] at h
    have hrec' : lookupObs (setObsState st oid OState.idle) oid
        = some { rec with state := OState.idle } := by
      simp only [setObsState, hrec]
      exact lookupA_setA_self _ _ _
    obtain ⟨r0, r1, r2, r3, r4, r5, r6, r7, ⟨v, r8⟩, r9⟩ :=
      runObs_readonly fuel oid _ { rec with state := OState.idle }
        errOpt st₂ hrec' hro hr
    subst r0
    have h2 : some (Except.ok Val.undefined, st₂) = some (r, st') := h
    simp only [Option.some.injEq, Prod.mk.injEq] at h2
    obtain ⟨h₁, h₂⟩ := h2
    subst h₂
    have htr : (setObsState st oid OState.idle).trace = st.trace := by
      simp only [setObsState, hrec]
      rfl
    refine ⟨h₁.symm, ?_, ⟨v, r8⟩⟩
    rw [r3, htr]

/-- C7: `start()` on a stopped observer transitions it to idle and triggers
exactly one run, recorded with the observer's most recent `this` and
arguments; on an observer that is not stopped (idle or running) it is a
complete no-op, returning the state unchanged.  In the inner-start
scenario, an outer observer whose body starts a stopped inner observer does
not subscribe to the cell the inner observer reads: after the write to that
cell only the inner observer has re-run (the outer observer's run count
stays 1) and the cell's subscriber list is exactly the inner observer. -/
theorem c7_start_idempotent_and_hidden :
    (∀ fuel oid (st : St) rec r st',
        lookupObs st oid = some rec → rec.state = OState.stopped →
        ReadOnly rec.body = true →
        startTop fuel oid st = some (r, st') →
        r = .ok .undefined ∧
        st'.trace = st.trace ++ [(oid, rec.thisV, rec.argsV)] ∧
        (∃ v, lookupObs st' oid
          = some { rec with state := OState.idle, value := v })) ∧
    (∀ fuel oid (st : St) rec,
        lookupObs st oid = some rec → rec.state ≠ OState.stopped →
        startTop fuel oid st = some (.ok .undefined, st)) ∧
    (stateOf innerStartRun).map St.trace
      = some [(1, .undefined, []), (2, .undefined, []), (2, .undefined, [])] ∧
    (stateOf innerStartRun).map (fun s => subsOf s (0, .prop "foo"))
      = some [2] ∧
    (stateOf innerStartRun).map (fun s => countRuns 1 (St.trace s)) = some 1 := by
  refine ⟨?_, ?_, ?_, ?_, ?_⟩
  · intro fuel oid st rec r st' hrec hstop hro h
    exact startTop_stopped_readonly fuel oid st rec r st' hrec hstop hro h
  · intro fuel oid st rec hrec hne
    simp only [startTop, hrec]
    rw [if_neg hne]
  · simp [innerStartRun, innerStartSt, andThen, invokeObs, interp, drainAll,
      runObs, readStep, hasStep, keysStep, setTrapPure, deleteTrapPure,
      maybeSubscribe, subscribe, subsOf, unsubscribeAll, unsubAllList,
      removeObs, dedupAppend, collectInto, collectSubs, notifyCells,
      heapGetRaw, heapKeys, assign, heapDelete, removeKey, containsD, subsetK,
      keySetEq, lookupA, setA, lookupObs, setObs, setObsState, stopObs,
      finishDrain, aggregate, flattenOnce, wrapVal, reactorCtor, mkObs,
      St.init, valOf, stateOf, errOf, startTop, setExecuteTop, execOf,
      countRuns]
  · simp [innerStartRun, innerStartSt, andThen, invokeObs, interp, drainAll,
      runObs, readStep, hasStep, keysStep, setTrapPure, deleteTrapPure,
      maybeSubscribe, subscribe, subsOf, unsubscribeAll, unsubAllList,
      removeObs, dedupAppend, collectInto, collectSubs, notifyCells,
      heapGetRaw, heapKeys, assign, heapDelete, removeKey, containsD, subsetK,
      keySetEq, lookupA, setA, lookupObs, setObs, setObsState, stopObs,
      finishDrain, aggregate, flattenOnce, wrapVal, reactorCtor, mkObs,
      St.init, valOf, stateOf, errOf, startTop, setExecuteTop, execOf,
      countRuns]
  · simp [innerStartRun, innerStartSt, andThen, invokeObs, interp, drainAll,
      runObs, readStep, hasStep, keysStep, setTrapPure, deleteTrapPure,
      maybeSubscribe, subscribe, subsOf, unsubscribeAll, unsubAllList,
      removeObs, dedupAppend, collectInto, collectSubs, notifyCells,
      heapGetRaw, heapKeys, assign, heapDelete, removeKey, containsD, subsetK,
      keySetEq, lookupA, setA, lookupObs, setObs, setObsState, stopObs,
      finishDrain, aggregate, flattenOnce, wrapVal, reactorCtor, mkObs,
      St.init, valOf, stateOf, errOf, startTop, setExecuteTop, execOf,
      countRuns]

end Elemental
namespace Elemental

theorem mem_removeObs (oid : Nat) (l : List Nat) : oid ∉ removeObs oid l := by
  induction l with
  | nil => simp [removeObs]
  | cons o rest ih =>
    by_cases h : o = oid
    · rw [removeObs, if_pos h]
      exact ih
    · rw [removeObs, if_neg h]
      intro hm
      rcases List.mem_cons.mp hm with he | hm'
      · exact h he.symm
      · exact ih hm'

theorem lookupA_unsubAllList (oid : Nat) (l : List (Cell × List Nat)) (c : Cell) :
    lookupA (unsubAllList oid l) c = (lookupA l c).map (removeObs oid) := by
  induction l with
  | nil => rfl
  | cons p rest ih =>
    obtain ⟨c', l'⟩ := p
    by_cases h : c' = c
    · simp [unsubAllList, lookupA, h]
    · simp [unsubAllList, lookupA, h, ih]

theorem subs_setObsState (st : St) (oid : Nat) (s : OState) :
    (setObsState st oid s).subs = st.subs := by
  unfold setObsState
  cases h : lookupObs st oid <;> rfl

/-- `stop()` removes the observer from every cell of the registry. -/
theorem stopObs_unsubscribed (st : St) (oid : Nat) (c : Cell) :
    oid ∉ subsOf (stopObs st oid) c := by
  have hsubs : subsOf (stopObs st oid) c = removeObs oid (subsOf st c) := by
    show (lookupA (setObsState (unsubscribeAll st oid) oid .stopped).subs c).getD []
      = removeObs oid ((lookupA st.subs c).getD [])
    rw [subs_setObsState]
    show (lookupA (unsubAllList oid st.subs) c).getD []
      = removeObs oid ((lookupA st.subs c).getD [])
    rw [lookupA_unsubAllList]
    cases lookupA st.subs c <;> rfl
  rw [hsubs]
  exact mem_removeObs oid _

/-- C8: `execute` reads back the currently-bound body; assigning a new
body — modelled, as specified, as the atomic composition stop() → replace
body → start() — stops the observer (its prior subscriptions are removed
from every cell by the stop step), installs the new body, and triggers
exactly one immediate run of the new body with the retained `this` and
arguments, after which `execute` reads back the new body.  In the
redefinition scenario, after the reassignment a write to the cell only the
old body read re-runs nothing, while a write to the cell the new body reads
re-runs the observer once and refreshes its value. -/
theorem c8_execute_redefinition :
    (∀ (st : St) oid rec, lookupObs st oid = some rec →
        execOf st oid = some rec.body) ∧
    (∀ (st : St) (oid : Nat) (c : Cell), oid ∉ subsOf (stopObs st oid) c) ∧
    (∀ fuel oid f (st : St) rec r st',
        lookupObs st oid = some rec → ReadOnly f = true →
        setExecuteTop fuel oid f st = some (r, st') →
        r = .ok .undefined ∧
        execOf st' oid = some f ∧
        st'.trace = st.trace ++ [(oid, rec.thisV, rec.argsV)]) ∧
    (stateOf redefRun0).map St.trace
      = some [(1, .undefined, []), (1, .undefined, [])] ∧
    (stateOf redefRun0).map (fun s => execOf s 1) = some (some (.readP 0 "second")) ∧
    (stateOf redefRunA).map St.trace
      = some [(1, .undefined, []), (1, .undefined, [])] ∧
    (stateOf redefRunA).map
      (fun s => (subsOf s (0, .prop "first"), subsOf s (0, .prop "second")))
      = some ([], [1]) ∧
    (stateOf redefRunB).map St.trace
      = some [(1, .undefined, []), (1, .undefined, []), (1, .undefined, [])] ∧
    (stateOf redefRunB).map (fun s => (lookupObs s 1).map ObsRec.value)
      = some (some (.str "baz")) := by
  refine ⟨?_, ?_, ?_, ?_, ?_, ?_, ?_, ?_, ?_⟩
  · intro st oid rec hrec
    rw [execOf, hrec]
    rfl
  · exact stopObs_unsubscribed
  · intro fuel oid f st rec r st' hrec hro h
    have hu : lookupObs (unsubscribeAll st oid) oid = some rec := hrec
    have hst1 : lookupObs (stopObs st oid) oid
        = some { rec with state := OState.stopped } := by
      show lookupObs (setObsState (unsubscribeAll st oid) oid .stopped) oid = _
      simp only [setObsState, hu]
      exact lookupA_setA_self _ _ _
    simp only [setExecuteTop, hst1] at h
    have hrecX : lookupObs (setObs (stopObs st oid) oid
        { body := f, state := OState.stopped, value := rec.value,
          thisV := rec.thisV, argsV := rec.argsV }) oid
        = some { body := f, state := OState.stopped, value := rec.value,
                 thisV := rec.thisV, argsV := rec.argsV } :=
      lookupA_setA_self _ _ _
    obtain ⟨e1, e2, ⟨v, e3⟩⟩ := startTop_stopped_readonly fuel oid _
      { body := f, state := OState.stopped, value := rec.value,
        thisV := rec.thisV, argsV := rec.argsV } r st' hrecX rfl hro h
    have htr : (setObs (stopObs st oid) oid
        { body := f, state := OState.stopped, value := rec.value,
          thisV := rec.thisV, argsV := rec.argsV }).trace = st.trace := by
      show (stopObs st oid).trace = st.trace
      show (setObsState (unsubscribeAll st oid) oid .stopped).trace = st.trace
      simp only [setObsState, hu]
      rfl
    refine ⟨e1, ?_, ?_⟩
    · rw [execOf, e3]
      rfl
    · rw [e2, htr]
  · simp [redefRun0, redefSt, andThen, invokeObs, interp, drainAll, runObs,
      readStep, hasStep, keysStep, setTrapPure, deleteTrapPure, maybeSubscribe,
      subscribe, subsOf, unsubscribeAll, unsubAllList, removeObs, dedupAppend,
      collectInto, collectSubs, notifyCells, heapGetRaw, heapKeys, assign,
      heapDelete, removeKey, containsD, subsetK, keySetEq, lookupA, setA,
      lookupObs, setObs, setObsState, stopObs, finishDrain, aggregate,
      flattenOnce, wrapVal, reactorCtor, mkObs, St.init, valOf, stateOf,
      errOf, startTop, setExecuteTop, execOf, countRuns]
  · simp [redefRun0, redefSt, andThen, invokeObs, interp, drainAll, runObs,
      readStep, hasStep, keysStep, setTrapPure, deleteTrapPure, maybeSubscribe,
      subscribe, subsOf, unsubscribeAll, unsubAllList, removeObs, dedupAppend,
      collectInto, collectSubs, notifyCells, heapGetRaw, heapKeys, assign,
      heapDelete, removeKey, containsD, subsetK, keySetEq, lookupA, setA,
      lookupObs, setObs, setObsState, stopObs, finishDrain, aggregate,
      flattenOnce, wrapVal, reactorCtor, mkObs, St.init, valOf, stateOf,
      errOf, startTop, setExecuteTop, execOf, countRuns]
  · simp [redefRunA, redefRun0, redefSt, andThen, invokeObs, interp, drainAll,
      runObs, readStep, hasStep, keysStep, setTrapPure, deleteTrapPure,
      maybeSubscribe, subscribe, subsOf, unsubscribeAll, unsubAllList,
      removeObs, dedupAppend, collectInto, collectSubs, notifyCells,
      heapGetRaw, heapKeys, assign, heapDelete, removeKey, containsD, subsetK,
      keySetEq, lookupA, setA, lookupObs, setObs, setObsState, stopObs,
      finishDrain, aggregate, flattenOnce, wrapVal, reactorCtor, mkObs,
      St.init, valOf, stateOf, errOf, startTop, setExecuteTop, execOf,
      countRuns]
  · simp [redefRunA, redefRun0, redefSt, andThen, invokeObs, interp, drainAll,
      runObs, readStep, hasStep, keysStep, setTrapPure, deleteTrapPure,
      maybeSubscribe, subscribe, subsOf, unsubscribeAll, unsubAllList,
      removeObs, dedupAppend, collectInto, collectSubs, notifyCells,
      heapGetRaw, heapKeys, assign, heapDelete, removeKey, containsD, subsetK,
      keySetEq, lookupA, setA, lookupObs, setObs, setObsState, stopObs,
      finishDrain, aggregate, flattenOnce, wrapVal, reactorCtor, mkObs,
      St.init, valOf, stateOf, errOf, startTop, setExecuteTop, execOf,
      countRuns]
  · simp [redefRunB, redefRunA, redefRun0, redefSt, andThen, invokeObs, interp,
      drainAll, runObs, readStep, hasStep, keysStep, setTrapPure,
      deleteTrapPure, maybeSubscribe, subscribe, subsOf, unsubscribeAll,
      unsubAllList, removeObs, dedupAppend, collectInto, collectSubs,
      notifyCells, heapGetRaw, heapKeys, assign, heapDelete, removeKey,
      containsD, subsetK, keySetEq, lookupA, setA, lookupObs, setObs,
      setObsState, stopObs, finishDrain, aggregate, flattenOnce, wrapVal,
      reactorCtor, mkObs, St.init, valOf, stateOf, errOf, startTop,
      setExecuteTop, execOf, countRuns]
  · simp [redefRunB, redefRunA, redefRun0, redefSt, andThen, invokeObs, interp,
      drainAll, runObs, readStep, hasStep, keysStep, setTrapPure,
      deleteTrapPure, maybeSubscribe, subscribe, subsOf, unsubscribeAll,
      unsubAllList, removeObs, dedupAppend, collectInto, collectSubs,
      notifyCells, heapGetRaw, heapKeys, assign, heapDelete, removeKey,
      containsD, subsetK, keySetEq, lookupA, setA, lookupObs, setObs,
      setObsState, stopObs, finishDrain, aggregate, flattenOnce, wrapVal,
      reactorCtor, mkObs, St.init, valOf, stateOf, errOf, startTop,
      setExecuteTop, execOf, countRuns]

end Elemental
namespace Elemental

/-- C2: error aggregation over one drain cycle.  A single collected
observer error is raised to the caller of the initiating write exactly
as-is; two or more collected errors are raised as one composite whose
cause list is the ordered collection, with composites appearing inside the
collection flattened one level and plain errors kept in place.  On the
pinned scenarios: one throwing observer propagates its error unchanged;
two throwing observers raise a composite with the two causes in
subscription order; and a chain in which a passthrough observer's write
triggers two further throwing observers raises one composite whose flat
cause list has exactly the four underlying errors (four throwing observers
across two cells give four causes). -/
theorem c2_error_aggregation_flattens :
    (∀ e : RErr, aggregate [e] = some e) ∧
    (∀ (e₁ e₂ : RErr) (es : List RErr), aggregate (e₁ :: e₂ :: es)
      = some (.compound (flattenOnce (e₁ :: e₂ :: es)))) ∧
    (∀ (cs : List RErr) (rest : List RErr),
      flattenOnce (RErr.compound cs :: rest) = cs ++ flattenOnce rest) ∧
    (∀ (m : String) (rest : List RErr),
      flattenOnce (RErr.simple m :: rest) = RErr.simple m :: flattenOnce rest) ∧
    errOf singleErrRun = some (.simple "dummy error") ∧
    errOf doubleErrRun
      = some (.compound [.simple "dummy error 1", .simple "dummy error 2"]) ∧
    errOf chainErrRun
      = some (.compound [.simple "BIG ERROR 1", .simple "BIG ERROR 2",
          .simple "small error 1", .simple "small error 2"]) ∧
    (errOf chainErrRun).map RErr.numCauses = some 4 := by
  refine ⟨fun e => rfl, fun e₁ e₂ es => rfl, fun cs rest => rfl,
    fun m rest => rfl, ?_, ?_, ?_, ?_⟩
  · simp [singleErrRun, singleErrSt, andThen, invokeObs, interp, drainAll,
      runObs, readStep, hasStep, keysStep, setTrapPure, deleteTrapPure,
      maybeSubscribe, subscribe, subsOf, unsubscribeAll, unsubAllList,
      removeObs, dedupAppend, collectInto, collectSubs, notifyCells,
      heapGetRaw, heapKeys, assign, heapDelete, removeKey, containsD, subsetK,
      keySetEq, lookupA, setA, lookupObs, setObs, setObsState, stopObs,
      finishDrain, aggregate, flattenOnce, wrapVal, reactorCtor, mkObs,
      St.init, valOf, stateOf, errOf, startTop, setExecuteTop, execOf,
      countRuns]
  · simp [doubleErrRun, doubleErrSt, andThen, invokeObs, interp, drainAll,
      runObs, readStep, hasStep, keysStep, setTrapPure, deleteTrapPure,
      maybeSubscribe, subscribe, subsOf, unsubscribeAll, unsubAllList,
      removeObs, dedupAppend, collectInto, collectSubs, notifyCells,
      heapGetRaw, heapKeys, assign, heapDelete, removeKey, containsD, subsetK,
      keySetEq, lookupA, setA, lookupObs, setObs, setObsState, stopObs,
      finishDrain, aggregate, flattenOnce, wrapVal, reactorCtor, mkObs,
      St.init, valOf, stateOf, errOf, startTop, setExecuteTop, execOf,
      countRuns]
  · simp [chainErrRun, chainErrSt, andThen, invokeObs, interp, drainAll,
      runObs, readStep, hasStep, keysStep, setTrapPure, deleteTrapPure,
      maybeSubscribe, subscribe, subsOf, unsubscribeAll, unsubAllList,
      removeObs, dedupAppend, collectInto, collectSubs, notifyCells,
      heapGetRaw, heapKeys, assign, heapDelete, removeKey, containsD, subsetK,
      keySetEq, lookupA, setA, lookupObs, setObs, setObsState, stopObs,
      finishDrain, aggregate, flattenOnce, wrapVal, reactorCtor, mkObs,
      St.init, valOf, stateOf, errOf, startTop, setExecuteTop, execOf,
      countRuns]
  · simp [chainErrRun, chainErrSt, andThen, invokeObs, interp, drainAll,
      runObs, readStep, hasStep, keysStep, setTrapPure, deleteTrapPure,
      maybeSubscribe, subscribe, subsOf, unsubscribeAll, unsubAllList,
      removeObs, dedupAppend, collectInto, collectSubs, notifyCells,
      heapGetRaw, heapKeys, assign, heapDelete, removeKey, containsD, subsetK,
      keySetEq, lookupA, setA, lookupObs, setObs, setObsState, stopObs,
      finishDrain, aggregate, flattenOnce, wrapVal, reactorCtor, mkObs,
      St.init, valOf, stateOf, errOf, startTop, setExecuteTop, execOf,
      RErr.numCauses, countRuns]

end Elemental
namespace Elemental

/-!
### Part 2: the DOM helpers present in the source tree

`getNodesBetween` and `isTreatedAsQuerySelector` are translated from
`utils.js`; the descriptor handling of `el` is translated from
`elemental.js`.
-/

/-- A DOM-node context: the `parentNode` and `nextSibling` accessors that
`getNodesBetween` consults, over node identities. -/
structure Dom where
  parent : Nat → Option Nat
  nextSib : Nat → Option Nat

/-- The sibling walk of `getNodesBetween`: starting from
`startNode.nextSibling`, collect nodes until `endNode` is met; a null
sibling raises the error.  `none` means the fuel ran out. -/
def walkBetween (d : Dom) (endN : Nat) :
    Nat → Option Nat → Option (Except String (List Nat))
  | _, none => some (.error "endNode could not be reached from startNode")
  | 0, some _ => none
  | fuel + 1, some n =>
    if n = endN then some (.ok [])
    else
      match walkBetween d endN fuel (d.nextSib n) with
      | none => none
      | some (.error e) => some (.error e)
      | some (.ok l) => some (.ok (n :: l))

/-- Translated from `utils.js`: `getNodesBetween(startNode, endNode)` —
throw when either parent is null or the parents differ, otherwise walk
`nextSibling` links from `startNode`, collecting every node strictly
before `endNode`, and throw if the walk reaches null first. -/
def getNodesBetween (d : Dom) (fuel : Nat) (startN endN : Nat) :
    Option (Except String (List Nat)) :=
  if d.parent startN = none ∨ d.parent endN = none ∨
      d.parent startN ≠ d.parent endN then
    some (.error "endNode could not be reached from startNode")
  else walkBetween d endN fuel (d.nextSib startN)

/-- `Links d a mid b`: following `nextSibling` from `a` passes exactly
through `mid` in order and then reaches `b`. -/
def Links (d : Dom) : Nat → List Nat → Nat → Prop
  | a, [], b => d.nextSib a = some b
  | a, x :: xs, b => d.nextSib a = some x ∧ Links d x xs b

/-- `LinksNull d a mid`: following `nextSibling` from `a` passes exactly
through `mid` in order and then reaches null. -/
def LinksNull (d : Dom) : Nat → List Nat → Prop
  | a, [] => d.nextSib a = none
  | a, x :: xs => d.nextSib a = some x ∧ LinksNull d x xs

theorem walkBetween_links (d : Dom) (endN : Nat) (mid : List Nat) :
    ∀ a fuel, Links d a mid endN → endN ∉ mid → mid.length < fuel →
      walkBetween d endN fuel (d.nextSib a) = some (.ok mid) := by
  induction mid with
  | nil =>
    intro a fuel hl hmem hfuel
    cases fuel with
    | zero => omega
    | succ f =>
      rw [show d.nextSib a = some endN from hl]
      simp [walkBetween]
  | cons x xs ih =>
    intro a fuel hl hmem hfuel
    cases fuel with
    | zero => simp at hfuel
    | succ f =>
      obtain ⟨h1, h2⟩ := hl
      have hxe : ¬(x = endN) := by
        intro he
        exact hmem (he ▸ List.mem_cons_self x xs)
      have hmem' : endN ∉ xs := fun hm => hmem (List.mem_cons_of_mem _ hm)
      have hfuel' : xs.length < f := by
        simp at hfuel
        omega
      rw [h1]
      simp only [walkBetween]
      rw [if_neg hxe, ih x f h2 hmem' hfuel']

theorem walkBetween_null (d : Dom) (endN : Nat) (mid : List Nat) :
    ∀ a fuel, LinksNull d a mid → endN ∉ mid → mid.length < fuel →
      walkBetween d endN fuel (d.nextSib a)
        = some (.error "endNode could not be reached from startNode") := by
  induction mid with
  | nil =>
    intro a fuel hl hmem hfuel
    rw [show d.nextSib a = none from hl]
    cases fuel with
    | zero => rfl
    | succ f => rfl
  | cons x xs ih =>
    intro a fuel hl hmem hfuel
    cases fuel with
    | zero => simp at hfuel
    | succ f =>
      obtain ⟨h1, h2⟩ := hl
      have hxe : ¬(x = endN) := by
        intro he
        exact hmem (he ▸ List.mem_cons_self x xs)
      have hmem' : endN ∉ xs := fun hm => hmem (List.mem_cons_of_mem _ hm)
      have hfuel' : xs.length < f := by
        simp at hfuel
        omega
      rw [h1]
      simp only [walkBetween]
      rw [if_neg hxe, ih x f h2 hmem' hfuel']

/-- C9: `getNodesBetween(startNode, endNode)` returns exactly the sibling
nodes strictly between the two nodes, in document order, whenever the two
nodes share a non-null parent and `endNode` is reachable from `startNode`
by `nextSibling` links without passing through `endNode` earlier; and it
throws `Error('endNode could not be reached from startNode')` whenever
either node has a null parent, or the parents differ, or the sibling walk
from `startNode` reaches null before meeting `endNode`. -/
theorem c9_getNodesBetween_spec :
    (∀ (d : Dom) (fuel startN endN : Nat) (mid : List Nat),
        d.parent startN ≠ none → d.parent startN = d.parent endN →
        Links d startN mid endN → endN ∉ mid → mid.length < fuel →
        getNodesBetween d fuel startN endN = some (.ok mid)) ∧
    (∀ (d : Dom) (fuel startN endN : Nat),
        (d.parent startN = none ∨ d.parent endN = none ∨
          d.parent startN ≠ d.parent endN) →
        getNodesBetween d fuel startN endN
          = some (.error "endNode could not be reached from startNode")) ∧
    (∀ (d : Dom) (fuel startN endN : Nat) (mid : List Nat),
        d.parent startN ≠ none → d.parent startN = d.parent endN →
        LinksNull d startN mid → endN ∉ mid → mid.length < fuel →
        getNodesBetween d fuel startN endN
          = some (.error "endNode could not be reached from startNode")) := by
  refine ⟨?_, ?_, ?_⟩
  · intro d fuel startN endN mid hp1 hp2 hl hmem hfuel
    rw [getNodesBetween, if_neg]
    · exact walkBetween_links d endN mid startN fuel hl hmem hfuel
    · rintro (h | h | h)
      · exact hp1 h
      · exact hp1 (hp2.trans h)
      · exact h hp2
  · intro d fuel startN endN hbad
    rw [getNodesBetween, if_pos hbad]
  · intro d fuel startN endN mid hp1 hp2 hl hmem hfuel
    rw [getNodesBetween, if_neg]
    · exact walkBetween_null d endN mid startN fuel hl hmem hfuel
    · rintro (h | h | h)
      · exact hp1 h
      · exact hp1 (hp2.trans h)
      · exact h hp2

end Elemental
namespace Elemental

/-- Translated from `utils.js`: the manually compiled list of valid HTML
tags. -/
def VALID_HTML_TAGS : List String :=
  ["a", "abbr", "acronym", "address", "applet", "area", "article", "aside",
   "audio",
   "b", "base", "basefont", "bdi", "bdo", "bgsound", "big", "blockquote",
   "body", "br", "button",
   "canvas", "caption", "center", "cite", "code", "col", "colgroup",
   "command",
   "data", "datagrid", "datalist", "dd", "del", "details", "dfn", "dialog",
   "dir", "div", "dl", "dt",
   "em", "embed", "eventsource",
   "fieldset", "figcaption", "figure", "font", "footer", "form", "frame",
   "frameset",
   "h1", "h2", "h3", "h4", "h5", "h6", "head", "header", "hgroup", "hr",
   "html",
   "i", "iframe", "img", "input", "ins", "isindex",
   "kbd", "keygen",
   "label", "legend", "li", "link", "listing",
   "main", "map", "mark", "menu", "menuitem", "meta", "meter",
   "nav", "noframes", "noscript",
   "object", "ol", "optgroup", "option", "output",
   "p", "param", "plaintext", "pre", "progress",
   "q",
   "ruby", "rp", "rt",
   "s", "samp", "script", "section", "select", "small", "source", "span",
   "strike", "strong", "style", "sub", "summary", "sup",
   "table", "tbody", "td", "textarea", "tfoot", "th", "thead", "time",
   "title", "tr", "track", "tt",
   "u", "ul",
   "var", "video",
   "wbr", "xmp"]

/-- Translated from `utils.js`: a string is treated as a css query selector
when it is non-empty and its first character is `#` or `.` (the length
check and the regex test `/^[.#]/`, expressed on the character list). -/
def isTreatedAsQuerySelector (testString : String) : Bool :=
  match testString.data with
  | [] => false
  | c :: _ => c = '.' || c = '#'

/-- The characters before the first space: `split(' ')[0]` on the
character list. -/
def firstWordChars : List Char → List Char
  | [] => []
  | c :: cs => if c = ' ' then [] else c :: firstWordChars cs

/-- `descriptor.split(' ')[0]`. -/
def firstWord (s : String) : String :=
  String.mk (firstWordChars s.data)

/-- The element a string descriptor resolves to: a brand-new element with a
tag and a class string, or an existing element found in the document. -/
inductive ElShape where
  | created (tag : String) (className : String)
  | existing (node : Nat)
deriving DecidableEq, Repr

/-- Translated from `elemental.js`: the string-descriptor handling of `el`.
`query` stands for `document.querySelector`.  A selector-looking
descriptor is looked up and a missing match throws; any other string
creates a new element whose tag is the descriptor's first space-separated
word when that word is a valid HTML tag and `div` otherwise, with the
whole descriptor as the className.  (The `Element` descriptor branch of
`el` is outside this model.) -/
def el (query : String → Option Nat) (descriptor : String) :
    Except String ElShape :=
  if isTreatedAsQuerySelector descriptor then
    match query descriptor with
    | some n => .ok (.existing n)
    | none =>
      .error ("el descriptor selector \"" ++ descriptor ++ "\" not found")
  else
    let tag := if containsD VALID_HTML_TAGS (firstWord descriptor)
               then firstWord descriptor
               else "div"
    .ok (.created tag descriptor)

theorem isTreatedAsQuerySelector_false (s : String)
    (h1 : s.data.head? ≠ some '.') (h2 : s.data.head? ≠ some '#') :
    isTreatedAsQuerySelector s = false := by
  rw [isTreatedAsQuerySelector]
  cases hd : s.data with
  | nil => rfl
  | cons c cs =>
    have hc1 : ¬(c = '.') := fun he => h1 (by rw [hd, he]; rfl)
    have hc2 : ¬(c = '#') := fun he => h2 (by rw [hd, he]; rfl)
    simp [hc1, hc2]

theorem isTreatedAsQuerySelector_true (s : String)
    (h : s.data.head? = some '.' ∨ s.data.head? = some '#') :
    isTreatedAsQuerySelector s = true := by
  rw [isTreatedAsQuerySelector]
  cases hd : s.data with
  | nil => rcases h with h | h <;> (rw [hd] at h; cases h)
  | cons c cs =>
    rcases h with h | h <;>
      (rw [hd] at h
       simp only [List.head?] at h
       injection h with h
       simp [h])

/-- C10: for every string descriptor that starts with neither `.` nor `#`,
`el` never performs a document lookup — for every `query` function it
returns a brand-new element whose tag is the descriptor's first
space-separated word when that word is in `VALID_HTML_TAGS` and `div`
otherwise, and whose className is the entire descriptor; descriptors
starting with `.` or `#` are instead resolved through `query`, returning
the found element and throwing
`Error('el descriptor selector "…" not found')` when nothing matches. -/
theorem c10_el_descriptor_spec :
    (∀ (query : String → Option Nat) (s : String),
        s.data.head? ≠ some '.' → s.data.head? ≠ some '#' →
        el query s = .ok (.created
          (if containsD VALID_HTML_TAGS (firstWord s)
           then firstWord s else "div") s)) ∧
    (∀ (q₁ q₂ : String → Option Nat) (s : String),
        s.data.head? ≠ some '.' → s.data.head? ≠ some '#' →
        el q₁ s = el q₂ s) ∧
    (∀ (query : String → Option Nat) (s : String) (n : Nat),
        (s.data.head? = some '.' ∨ s.data.head? = some '#') →
        query s = some n → el query s = .ok (.existing n)) ∧
    (∀ (query : String → Option Nat) (s : String),
        (s.data.head? = some '.' ∨ s.data.head? = some '#') →
        query s = none →
        el query s
          = .error ("el descriptor selector \"" ++ s ++ "\" not found")) := by
  refine ⟨?_, ?_, ?_, ?_⟩
  · intro query s h1 h2
    rw [el, isTreatedAsQuerySelector_false s h1 h2]
    rfl
  · intro q₁ q₂ s h1 h2
    rw [el, el, isTreatedAsQuerySelector_false s h1 h2]
    rfl
  · intro query s n hsel hq
    rw [el, isTreatedAsQuerySelector_true s hsel]
    simp only [if_true]
    rw [hq]
  · intro query s hsel hq
    rw [el, isTreatedAsQuerySelector_true s hsel]
    simp only [if_true]
    rw [hq]

end Elemental

namespace Elemental

/-- A quiescent witness state: one idle observer subscribed to the `foo`
value cell of source 0, empty queue, depth zero. -/
def quiescentSt : St :=
  { St.init with
    heap := [(0, [("foo", Val.str "bar")])],
    subs := [((0, .prop "foo"), [1])],
    obs := [(1, { body := .readP 0 "foo", state := .idle,
                  value := .str "bar", thisV := .undefined, argsV := [] })] }

/-- The state after writing `foo := "baz"` in `quiescentSt` and draining:
the observer re-ran once and holds the new value. -/
def quiescentFinal : St :=
  { St.init with
    heap := [(0, [("foo", Val.str "baz")])],
    subs := [((0, .prop "foo"), [1])],
    obs := [(1, { body := .readP 0 "foo", state := .idle,
                  value := .str "baz", thisV := .undefined, argsV := [] })],
    trace := [(1, .undefined, [])] }

theorem c1_noChange_write_silent_witness :
    (setTrapPure quiescentSt 0 "foo" (.str "bar")).1 = [] :=
  (c1_noChange_write_silent 5 quiescentSt 0 "foo" (.str "bar") rfl
    (by decide) (by decide) (by decide)).1

theorem c3_batch_defers_witness :
    ({ St.init with depth := 1, heap := [(0, [("k", Val.str "x")])] } : St).trace
      = ({ St.init with depth := 1 } : St).trace :=
  (c3_batch_defers_and_coalesces.1 (.writeP 0 "k" (.str "x")) 3
    { St.init with depth := 1 } (.ok (.str "x"))
    { St.init with depth := 1, heap := [(0, [("k", Val.str "x")])] }
    (by decide) (by decide)
    (by simp [interp, setTrapPure, notifyCells, collectInto, dedupAppend,
      subsOf, heapGetRaw, heapKeys, assign, containsD, subsetK, keySetEq,
      lookupA, setA, St.init])).2.1

theorem c4_hide_witness :
    interp 2 (.hideP (.lit (.str "r"))) St.init
      = some (.ok (.str "r"), St.init) :=
  c4_hide_suppresses_tracking.1 1 (.lit (.str "r")) St.init
    (.ok (.str "r")) { St.init with hidden := true } (by simp [interp])

theorem c5_canonical_witness :
    shuck (reactorCtor St.init 0).2 (reactorCtor St.init 0).1 = some 0 :=
  c5_canonical_wrapper_identity.2.1 St.init 0
    (fun s w h => by simp [St.init, lookupA] at h)

theorem c6_exactly_once_witness :
    (collectSubs quiescentSt (setTrapPure quiescentSt 0 "foo" (.str "baz")).1).Nodup :=
  (c6_write_drain_exactly_once 9 quiescentSt 0 "foo" (.str "baz")
    (.ok (.str "baz")) quiescentFinal rfl rfl rfl
    (by
      intro o r h
      rw [show lookupObs quiescentSt o
        = (if (1 : Nat) = o
           then some { body := Prog.readP 0 "foo", state := OState.idle,
                       value := Val.str "bar", thisV := Val.undefined, argsV := [] }
           else none) from rfl] at h
      split at h
      · injection h with h'
        rw [← h']
        exact ⟨rfl, rfl⟩
      · cases h)
    (by
      intro o ho
      have hc : collectSubs quiescentSt
          (setTrapPure quiescentSt 0 "foo" (.str "baz")).1 = [1] := by decide
      rw [hc] at ho
      have ho1 : o = 1 := by simpa using ho
      subst ho1
      exact ⟨_, rfl⟩)
    (by simp [interp, drainAll, runObs, readStep, hasStep, keysStep,
      setTrapPure, deleteTrapPure, maybeSubscribe, subscribe, subsOf,
      unsubscribeAll, unsubAllList, removeObs, dedupAppend, collectInto,
      collectSubs, notifyCells, heapGetRaw, heapKeys, assign, heapDelete,
      removeKey, containsD, subsetK, keySetEq, lookupA, setA, lookupObs,
      setObs, setObsState, stopObs, finishDrain, aggregate, flattenOnce,
      wrapVal, reactorCtor, St.init, quiescentSt, quiescentFinal])).2.1

theorem c7_start_witness :
    startTop 3 1 quiescentSt = some (.ok .undefined, quiescentSt) :=
  c7_start_idempotent_and_hidden.2.1 3 1 quiescentSt
    { body := .readP 0 "foo", state := .idle, value := .str "bar",
      thisV := .undefined, argsV := [] }
    rfl (by decide)

theorem c8_execute_witness :
    execOf quiescentSt 1 = some (.readP 0 "foo") ∧
    (1 : Nat) ∉ subsOf (stopObs quiescentSt 1) (0, .prop "foo") :=
  ⟨c8_execute_redefinition.1 quiescentSt 1
      { body := .readP 0 "foo", state := .idle, value := .str "bar",
        thisV := .undefined, argsV := [] } rfl,
   c8_execute_redefinition.2.1 quiescentSt 1 (0, .prop "foo")⟩

/-- A four-node sibling chain 1 → 2 → 3 → 4 under one parent. -/
def domW : Dom :=
  ⟨fun _ => some 0,
   fun n => if n = 1 then some 2 else if n = 2 then some 3
            else if n = 3 then some 4 else none⟩

theorem c9_getNodesBetween_witness :
    getNodesBetween domW 5 1 4 = some (.ok [2, 3]) :=
  c9_getNodesBetween_spec.1 domW 5 1 4 [2, 3] (by decide) (by decide)
    ⟨rfl, rfl, rfl⟩ (by decide) (by decide)

theorem c10_el_witness :
    el (fun _ => none) "h1 foo bar" = .ok (.created "h1" "h1 foo bar") := by
  have h := c10_el_descriptor_spec.1 (fun _ => none) "h1 foo bar"
    (by decide) (by decide)
  rw [h]
  rfl

end Elemental
